import Mathlib

/-
  Verification development for the jBREAD tree-walking interpreter
  (scanner, parser, environment chain, evaluator).

  Shallow embedding notes:
  * Rust `f64` is modelled as `ℚ` (exact, executable, decidable equality);
    the claims exercised here depend only on equality with `0`, on the
    field operations, and on the distinction between the `Number` variant
    and the `NaN` sentinel variant, none of which need IEEE bit-level
    behaviour.  Division is the total `ℚ` division.
  * Rust `HashMap<String, _>` is modelled as an association list with
    insert-replaces-first semantics (`scopeInsert`).
  * The `Rc<RefCell<Environment>>` chain is modelled as a list of scopes,
    innermost first; mutation through the chain is explicit state passing.
  * Rust panics (`unwrap` on `None`, explicit `panic!`) are modelled as
    distinguished outcome constructors (`crashPeek`, `crashPrev`,
    `crashMsg`), separate from the `JBreadErrors` results.
  * `src/src/token.rs` in the snapshot lacks the `NaN` variant of `Literal`
    and the `NaN` member of `TokenTypes`, but `parser.rs`,
    `interpreter/interpret.rs` and `tool/print_ast.rs` all use
    `LiteralEnum::NaN` / `TokenTypes::NaN`; both are therefore included
    here as unit variants of the enums declared in token.rs, sharing the
    derived structural equality (`derive(PartialEq)`) that token.rs puts
    on those enums.
-/

namespace JBread

/-- `Literal` enum of token.rs (`Literal as LiteralEnum` at use sites):
`String(String) | Number(f64) | Boolean(bool) | NaN`, with
`#[derive(PartialEq)]` structural equality. -/
inductive LiteralEnum where
  | str (s : String)
  | num (n : ℚ)
  | boolean (b : Bool)
  | nan
deriving DecidableEq, Repr

/-- `TokenTypes` enum of token.rs (plus the `NaN` member used by parser.rs). -/
inductive TokenTypes where
  | leftParen
  | rightParen
  | leftBrace
  | rightBrace
  | comma
  | dot
  | minus
  | plus
  | semicolon
  | slash
  | star
  | bang
  | bangEqual
  | equal
  | equalEqual
  | greater
  | greaterEqual
  | less
  | lessEqual
  | identifier
  | string
  | number
  | and
  | class_
  | else_
  | false_
  | fun_
  | for_
  | if_
  | nil
  | or
  | print
  | return_
  | super_
  | this_
  | true_
  | var
  | while_
  | nanKw
  | eof
deriving DecidableEq, Repr

/-- `Token` struct of token.rs. -/
structure Token where
  token_type : TokenTypes
  lexeme : String
  literal : Option LiteralEnum
  line : Nat
deriving DecidableEq, Repr

/-- `Error` struct of errors.rs: `Error::new(line, where_, message)`. -/
structure Error where
  line : Nat
  where_ : String
  message : String
deriving DecidableEq, Repr

/-- `JBreadErrors` enum of errors.rs. -/
inductive JBreadErrors where
  | ParseError (e : Error)
  | RunTimeException (e : Error)
deriving DecidableEq, Repr

/-- `Expr` sum of ast.rs (`define_ast!` expansion): Binary, Grouping,
Literal, Unary, Variable, Assign. -/
inductive Expr where
  | binary (left : Expr) (operator : Token) (right : Expr)
  | grouping (expression : Expr)
  | literal (value : Option LiteralEnum)
  | unary (operator : Token) (right : Expr)
  | variable_ (name : Token)
  | assign (name : Token) (value : Expr)
deriving DecidableEq, Repr

/-- `Stmt` sum of ast.rs: Expression, Print, Var, Block.
(`Block` is used by parser.rs and interpreter/interpret.rs.) -/
inductive Stmt where
  | expression (expression : Expr)
  | print (expression : Expr)
  | var (name : Token) (initializer : Option Expr)
  | block (statements : List Stmt)
deriving Repr

/-- ast.rs `Literal` node / evaluation result: `{ value: Option<LiteralEnum> }`. -/
structure AstLiteral where
  value : Option LiteralEnum
deriving DecidableEq, Repr

/-- token.rs `TryInto<f64> for Literal`. -/
def tryIntoNum : LiteralEnum → Except JBreadErrors ℚ
  | .num n => .ok n
  | _ => .error (.RunTimeException ⟨0, "Number", "Cannot convert non-number to number"⟩)

/-- token.rs `TryInto<String> for Literal`. -/
def tryIntoStr : LiteralEnum → Except JBreadErrors String
  | .str s => .ok s
  | _ => .error (.RunTimeException ⟨0, "String", "Cannot convert non-string to string"⟩)

/-- token.rs `TryInto<bool> for Literal`. -/
def tryIntoBool : LiteralEnum → Except JBreadErrors Bool
  | .boolean b => .ok b
  | _ => .error (.RunTimeException ⟨0, "Boolean", "Cannot convert non-boolean to boolean"⟩)

/-- interpret.rs `Interpreter::error`: a RuntimeException carrying the
token's line and lexeme plus the message. -/
def rtError (token : Token) (message : String) : JBreadErrors :=
  .RunTimeException ⟨token.line, token.lexeme, message⟩

/-- One scope's `values: HashMap<String, Option<LiteralEnum>>`, as an
association list (first binding for a key is the live one). -/
def Scope := List (String × Option LiteralEnum)
deriving instance DecidableEq, Repr for Scope

/-- `HashMap::get`. -/
def scopeGet : Scope → String → Option (Option LiteralEnum)
  | [], _ => none
  | (k', v) :: rest, k => if k' = k then some v else scopeGet rest k

/-- `HashMap::contains_key`. -/
def scopeContains (sc : Scope) (k : String) : Bool :=
  (scopeGet sc k).isSome

/-- `HashMap::insert` (replace the live binding or append a new one). -/
def scopeInsert : Scope → String → Option LiteralEnum → Scope
  | [], k, v => [(k, v)]
  | (k', v') :: rest, k, v =>
    if k' = k then (k, v) :: rest else (k', v') :: scopeInsert rest k v

/-- The environment chain (environment.rs), innermost scope first; the
`enclosing` back-references become the tail of the list. -/
def Env := List Scope
deriving instance DecidableEq, Repr for Env

/-- environment.rs `Environment::error`: "Undefined variable". -/
def envError (name : Token) : JBreadErrors :=
  .RunTimeException ⟨name.line, name.lexeme, "Undefined variable"⟩

/-- environment.rs `define`: insert into this scope only. -/
def envDefine (env : Env) (name : String) (value : Option LiteralEnum) : Env :=
  match env with
  | [] => []
  | sc :: rest => scopeInsert sc name value :: rest

/-- environment.rs `get`: this scope, then the enclosing chain. -/
def envGet : Env → Token → Except JBreadErrors (Option LiteralEnum)
  | [], token => .error (envError token)
  | sc :: rest, token =>
    match scopeGet sc token.lexeme with
    | some v => .ok v
    | none => envGet rest token

/-- environment.rs `assign`: mutate the first scope (innermost outward)
that already has the name; error if none does. -/
def envAssign : Env → Token → Option LiteralEnum → Except JBreadErrors Env
  | [], name, _ => .error (envError name)
  | sc :: rest, name, value =>
    if scopeContains sc name.lexeme then
      .ok (scopeInsert sc name.lexeme value :: rest)
    else
      match envAssign rest name value with
      | .ok rest' => .ok (sc :: rest')
      | .error e => .error e

/-- The operator dispatch of interpret.rs `visit_expr_binary`, after both
operands have been evaluated to literal values.  `left_num` / `right_num`
are the deferred `TryInto<f64>` results, exactly as in the source. -/
def binaryOp (operator : Token) (left right : LiteralEnum) :
    Except JBreadErrors AstLiteral :=
  let left_num := tryIntoNum left
  let right_num := tryIntoNum right
  match operator.token_type with
  | .minus => do pure ⟨some (.num ((← left_num) - (← right_num)))⟩
  | .star => do pure ⟨some (.num ((← left_num) * (← right_num)))⟩
  | .greater => do pure ⟨some (.boolean (decide ((← left_num) > (← right_num))))⟩
  | .greaterEqual => do pure ⟨some (.boolean (decide ((← left_num) ≥ (← right_num))))⟩
  | .less => do pure ⟨some (.boolean (decide ((← left_num) < (← right_num))))⟩
  | .lessEqual => do pure ⟨some (.boolean (decide ((← left_num) ≤ (← right_num))))⟩
  | .bangEqual => pure ⟨some (.boolean (decide (¬ left = right)))⟩
  | .equalEqual => pure ⟨some (.boolean (decide (left = right)))⟩
  | .slash =>
    match left_num, right_num with
    | .ok l, .ok r =>
      if r = 0 ∧ l = 0 then pure ⟨some .nan⟩
      else pure ⟨some (.num (l / r))⟩
    | _, _ => .error (rtError operator "Cannot divide non-number")
  | .plus =>
    match left, right with
    | .str _, .str _ => do
      let left_str ← tryIntoStr left
      let right_str ← tryIntoStr right
      pure ⟨some (.str (left_str ++ right_str))⟩
    | .num _, .num _ => do pure ⟨some (.num ((← left_num) + (← right_num)))⟩
    | _, _ => .error (rtError operator "Invalid operands")
  | _ => .error (rtError operator "Invalid operator for binary expression")

/-- interpret.rs expression evaluation (`VisitorExpr for Interpreter`),
with the environment chain threaded explicitly (assignment mutates it). -/
def evalExpr : Expr → Env → Except JBreadErrors AstLiteral × Env
  | .binary left operator right, env =>
    match evalExpr left env with
    | (.error e, env') => (.error e, env')
    | (.ok lres, env1) =>
      match lres.value with
      | none => (.error (rtError operator "Left value is not a literal"), env1)
      | some lv =>
        match evalExpr right env1 with
        | (.error e, env') => (.error e, env')
        | (.ok rres, env2) =>
          match rres.value with
          | none => (.error (rtError operator "Right value is not a literal"), env2)
          | some rv => (binaryOp operator lv rv, env2)
  | .grouping e, env => evalExpr e env
  | .literal v, env => (.ok ⟨v⟩, env)
  | .unary operator right, env =>
    match evalExpr right env with
    | (.error e, env') => (.error e, env')
    | (.ok rres, env1) =>
      match rres.value with
      | none => (.error (rtError operator "Right value is not a literal"), env1)
      | some rv =>
        match operator.token_type with
        | .minus =>
          (match tryIntoNum rv with
           | .ok n => .ok ⟨some (.num (-n))⟩
           | .error e => .error e, env1)
        | .bang =>
          (match tryIntoBool rv with
           | .ok b => .ok ⟨some (.boolean (!b))⟩
           | .error e => .error e, env1)
        | _ => (.error (rtError operator "Invalid operator for unary expression"), env1)
  | .variable_ name, env =>
    (match envGet env name with
     | .ok v => .ok ⟨v⟩
     | .error e => .error e, env)
  | .assign name value, env =>
    match evalExpr value env with
    | (.error e, env') => (.error e, env')
    | (.ok evaluated, env1) =>
      match envAssign env1 name evaluated.value with
      | .ok env2 => (.ok evaluated, env2)
      | .error e => (.error e, env1)

/-- Statement execution outcome (`JBreadResult<()>`, plus a fuel marker
that is an artifact of the fuel encoding, never of the source). -/
inductive XOut where
  | ok
  | err (e : JBreadErrors)
  | fuelOut
deriving DecidableEq, Repr

/-- One statement (`Interpreter::execute` dispatching into the
`VisitorStmt` methods), parameterized by the statement-list executor used
for a `Block`'s body (`execute_block` with a fresh child scope, whose
chain tail is kept afterwards). -/
def execStep (recur : List Stmt → Env → XOut × Env) (s : Stmt) (env : Env) :
    XOut × Env :=
  match s with
  | .expression e =>
    match evalExpr e env with
    | (.ok _, env') => (.ok, env')
    | (.error er, env') => (.err er, env')
  | .print e =>
    match evalExpr e env with
    | (.ok _, env') => (.ok, env')
    | (.error er, env') => (.err er, env')
  | .var name initializer =>
    match initializer with
    | some e =>
      match evalExpr e env with
      | (.ok lit, env') => (.ok, envDefine env' name.lexeme lit.value)
      | (.error er, env') => (.err er, env')
    | none => (.ok, envDefine env name.lexeme none)
  | .block ss =>
    match recur ss ([] :: env) with
    | (r, env') => (r, env'.tail)

/-- interpret.rs statement execution (`VisitorStmt for Interpreter`,
`execute_block`, `interpret`): runs a statement list in order against an
environment chain, stopping at the first error.  Fuel only bounds `Block`
nesting/sequencing depth; it is an encoding artifact, not source
behaviour. -/
def execStmts : Nat → List Stmt → Env → XOut × Env
  | 0, _, env => (.fuelOut, env)
  | _ + 1, [], env => (.ok, env)
  | fuel + 1, s :: rest, env =>
    match execStep (execStmts fuel) s env with
    | (.ok, env') => execStmts fuel rest env'
    | (r, env') => (r, env')

instance {ε α : Type} [DecidableEq ε] [DecidableEq α] : DecidableEq (Except ε α) :=
  fun x y =>
  match x, y with
  | .ok a, .ok b => decidable_of_iff (a = b) (by simp)
  | .error a, .error b => decidable_of_iff (a = b) (by simp)
  | .ok _, .error _ => isFalse (fun h => Except.noConfusion h)
  | .error _, .ok _ => isFalse (fun h => Except.noConfusion h)

/-- Whether two literal values use the same variant of `LiteralEnum`. -/
def sameVariant : LiteralEnum → LiteralEnum → Bool
  | .str _, .str _ => true
  | .num _, .num _ => true
  | .boolean _, .boolean _ => true
  | .nan, .nan => true
  | _, _ => false

/-- C1 counterexample: evaluating `Binary(Literal(NaN), EqualEqual, Literal(NaN))`
yields `Boolean(true)`, not `Boolean(false)` — the `NaN` sentinel is a unit
variant under the derived structural `PartialEq`, so it compares equal to
itself (the parser test `test_literal_nan` depends on this reflexivity). -/
theorem nan_equalEqual_nan_evaluates_true :
    evalExpr (.binary (.literal (some .nan)) ⟨.equalEqual, "==", none, 1⟩
        (.literal (some .nan))) [[]]
      = (.ok ⟨some (.boolean true)⟩, [[]]) ∧
    evalExpr (.binary (.literal (some .nan)) ⟨.equalEqual, "==", none, 1⟩
        (.literal (some .nan))) [[]]
      ≠ (.ok ⟨some (.boolean false)⟩, [[]]) := by
  decide

/-- C1 (amended): under `==`, values of different variants evaluate to
`Boolean(false)` and never to an error, while the `NaN` sentinel compares
equal to itself: `Binary(Literal(NaN), EqualEqual, Literal(NaN))` yields
`Boolean(true)`. -/
theorem equalEqual_cross_variant_false_nan_reflexive
    (l r : LiteralEnum) (env : Env) (lx : String) (lit : Option LiteralEnum)
    (ln : Nat) (h : sameVariant l r = false) :
    evalExpr (.binary (.literal (some l)) ⟨.equalEqual, lx, lit, ln⟩
        (.literal (some r))) env
      = (.ok ⟨some (.boolean false)⟩, env) ∧
    evalExpr (.binary (.literal (some .nan)) ⟨.equalEqual, lx, lit, ln⟩
        (.literal (some .nan))) env
      = (.ok ⟨some (.boolean true)⟩, env) := by
  refine ⟨?_, rfl⟩
  cases l <;> cases r <;> (try simp_all [sameVariant, evalExpr, binaryOp]) <;> rfl

/-- C1 witness for the amended theorem, at `String "a"` vs `Number 1`. -/
theorem equalEqual_cross_variant_false_nan_reflexive_witness :
    evalExpr (.binary (.literal (some (.str "a"))) ⟨.equalEqual, "==", none, 1⟩
        (.literal (some (.num 1)))) [[]]
      = (.ok ⟨some (.boolean false)⟩, [[]]) :=
  (equalEqual_cross_variant_false_nan_reflexive (.str "a") (.num 1) [[]]
    "==" none 1 (by decide)).1

/-- C2: for `Binary` with `Slash` on two `Number` operands, the result is
the `NaN` sentinel exactly when both numbers are `0`, and otherwise the
`Number` variant holding the quotient (so nonzero over zero is a `Number`,
never the sentinel), and never an error. -/
theorem slash_zero_zero_nan_sentinel
    (a b : ℚ) (env : Env) (lx : String) (lit : Option LiteralEnum) (ln : Nat) :
    evalExpr (.binary (.literal (some (.num a))) ⟨.slash, lx, lit, ln⟩
        (.literal (some (.num b)))) env
      = (.ok ⟨some (if b = 0 ∧ a = 0 then .nan else .num (a / b))⟩, env) := by
  by_cases h : b = 0 ∧ a = 0 <;> simp [evalExpr, binaryOp, tryIntoNum, h] <;> rfl

/-- C6: for `Binary` with `Plus`: String + String concatenates left-then-right,
Number + Number adds, and every other pairing is a RuntimeException with
message "Invalid operands". -/
theorem plus_operator_semantics
    (l r : LiteralEnum) (env : Env) (lx : String) (lit : Option LiteralEnum)
    (ln : Nat) :
    evalExpr (.binary (.literal (some l)) ⟨.plus, lx, lit, ln⟩
        (.literal (some r))) env
      = ((match l, r with
          | .str a, .str b => .ok ⟨some (.str (a ++ b))⟩
          | .num a, .num b => .ok ⟨some (.num (a + b))⟩
          | _, _ => .error (.RunTimeException ⟨ln, lx, "Invalid operands"⟩)), env) := by
  cases l <;> cases r <;> rfl

lemma scopeGet_insert_self (sc : Scope) (k : String) (v : Option LiteralEnum) :
    scopeGet (scopeInsert sc k v) k = some v := by
  induction sc with
  | nil => simp [scopeInsert, scopeGet]
  | cons hd tl ih =>
    obtain ⟨k', v'⟩ := hd
    by_cases h : k' = k <;> simp [scopeInsert, scopeGet, h, ih]

lemma scopeGet_insert_ne (sc : Scope) (k k' : String) (v : Option LiteralEnum)
    (h : k' ≠ k) : scopeGet (scopeInsert sc k v) k' = scopeGet sc k' := by
  induction sc with
  | nil => simp [scopeInsert, scopeGet, Ne.symm h]
  | cons hd tl ih =>
    obtain ⟨k0, v0⟩ := hd
    by_cases h0 : k0 = k
    · subst h0
      simp [scopeInsert, scopeGet, Ne.symm h]
    · simp [scopeInsert, scopeGet, h0, ih]

lemma scopeContains_insert (sc : Scope) (k k' : String) (v : Option LiteralEnum) :
    scopeContains (scopeInsert sc k v) k'
      = (scopeContains sc k' || decide (k' = k)) := by
  by_cases h : k' = k
  · subst h
    simp [scopeContains, scopeGet_insert_self]
  · simp [scopeContains, scopeGet_insert_ne sc k k' v h, h]

/-- Index of the first (innermost) scope of a chain containing a name. -/
def firstContainingIdx : Env → String → Option Nat
  | [], _ => none
  | sc :: rest, k =>
    if scopeContains sc k then some 0
    else (firstContainingIdx rest k).map (· + 1)

lemma envAssign_eq_set (env : Env) (tok : Token) (v : Option LiteralEnum)
    (i : Nat) (h : firstContainingIdx env tok.lexeme = some i) :
    envAssign env tok v
      = .ok (env.set i (scopeInsert (env.getD i []) tok.lexeme v)) := by
  induction env generalizing i with
  | nil => simp [firstContainingIdx] at h
  | cons sc rest ih =>
    by_cases hc : scopeContains sc tok.lexeme
    · simp [firstContainingIdx, hc] at h
      subst h
      simp [envAssign, hc]
    · simp [firstContainingIdx, hc] at h
      obtain ⟨j, hj, rfl⟩ := h
      simp [envAssign, hc, ih j hj]

lemma envAssign_none (env : Env) (tok : Token) (v : Option LiteralEnum)
    (h : firstContainingIdx env tok.lexeme = none) :
    envAssign env tok v = .error (envError tok) := by
  induction env with
  | nil => simp [envAssign]
  | cons sc rest ih =>
    by_cases hc : scopeContains sc tok.lexeme
    · simp [firstContainingIdx, hc] at h
    · simp [firstContainingIdx, hc] at h
      simp [envAssign, hc, ih h]

/-- C5: `assign` rewrites exactly the innermost scope already holding the
name (all other scopes of the chain are untouched, per `List.set`), and
when no scope holds it, it fails with the "Undefined variable"
RuntimeException without touching any scope. -/
theorem assign_innermost_scope_or_error (env : Env) (tok : Token)
    (v : Option LiteralEnum) :
    (∀ i, firstContainingIdx env tok.lexeme = some i →
       envAssign env tok v
         = .ok (env.set i (scopeInsert (env.getD i []) tok.lexeme v))) ∧
    (firstContainingIdx env tok.lexeme = none →
       envAssign env tok v = .error (envError tok) ∧
       evalExpr (.assign tok (.literal v)) env = (.error (envError tok), env)) := by
  refine ⟨fun i h => envAssign_eq_set env tok v i h, fun h => ⟨envAssign_none env tok v h, ?_⟩⟩
  simp [evalExpr, envAssign_none env tok v h]

/-- C5 witness: assigning `b` in a two-scope chain where only the outer
scope binds `b` rewrites the outer scope; assigning an unbound name errs. -/
theorem assign_innermost_scope_or_error_witness :
    envAssign [[("a", some (.num 1))], [("b", none)]] ⟨.identifier, "b", none, 1⟩
        (some (.num 2))
      = .ok [[("a", some (.num 1))], [("b", some (.num 2))]] ∧
    envAssign [[("a", some (.num 1))]] ⟨.identifier, "c", none, 2⟩ (some (.num 3))
      = .error (.RunTimeException ⟨2, "c", "Undefined variable"⟩) := by
  constructor
  · exact (assign_innermost_scope_or_error _ _ _).1 1 (by decide)
  · exact ((assign_innermost_scope_or_error _ _ _).2 (by decide)).1

lemma tail_getD {α : Type} (l : List α) (i : Nat) (d : α) :
    l.tail.getD i d = l.getD (i + 1) d := by
  cases l <;> simp [List.getD]

lemma getD_set_ne {α : Type} (l : List α) (i j : Nat) (a d : α) (h : i ≠ j) :
    (l.set i a).getD j d = l.getD j d := by
  induction l generalizing i j with
  | nil => simp
  | cons hd tl ih =>
    cases i with
    | zero =>
      cases j with
      | zero => exact absurd rfl h
      | succ j' => simp [List.getD]
    | succ i' =>
      cases j with
      | zero => simp [List.getD]
      | succ j' => simpa [List.getD] using ih i' j' (fun hh => h (by rw [hh]))

lemma getD_set_self {α : Type} (l : List α) (i : Nat) (a d : α)
    (h : i < l.length) : (l.set i a).getD i d = a := by
  induction l generalizing i with
  | nil => simp at h
  | cons hd tl ih =>
    cases i with
    | zero => simp [List.getD]
    | succ i' => simpa [List.getD] using ih i' (by simpa using h)

lemma firstContainingIdx_lt_length (env : Env) (k : String) (i : Nat)
    (h : firstContainingIdx env k = some i) : i < env.length := by
  induction env generalizing i with
  | nil => simp [firstContainingIdx] at h
  | cons sc rest ih =>
    by_cases hc : scopeContains sc k
    · simp [firstContainingIdx, hc] at h
      have hi : i = 0 := by omega
      subst hi
      simp
    · simp [firstContainingIdx, hc] at h
      obtain ⟨j, hj, rfl⟩ := h
      simpa using Nat.succ_lt_succ (ih j hj)

lemma firstContainingIdx_contains (env : Env) (k : String) (i : Nat)
    (h : firstContainingIdx env k = some i) :
    scopeContains (env.getD i []) k = true := by
  induction env generalizing i with
  | nil => simp [firstContainingIdx] at h
  | cons sc rest ih =>
    by_cases hc : scopeContains sc k
    · simp [firstContainingIdx, hc] at h
      subst h
      simpa [List.getD] using hc
    · simp [firstContainingIdx, hc] at h
      obtain ⟨j, hj, rfl⟩ := h
      simpa [List.getD] using ih j hj

lemma envAssign_get (env : Env) (tok : Token) (v : Option LiteralEnum)
    (env' : Env) (h : envAssign env tok v = .ok env') :
    envGet env' tok = .ok v := by
  induction env generalizing env' with
  | nil => simp [envAssign] at h
  | cons sc rest ih =>
    by_cases hc : scopeContains sc tok.lexeme
    · simp [envAssign, hc] at h
      subst h
      simp [envGet, scopeGet_insert_self]
    · simp [envAssign, hc] at h
      cases hr : envAssign rest tok v with
      | ok rest' =>
        rw [hr] at h
        simp at h
        subst h
        have hnone : scopeGet sc tok.lexeme = none := by
          cases hg : scopeGet sc tok.lexeme with
          | none => rfl
          | some v' => simp [scopeContains, hg] at hc
        simp [envGet, hnone, ih rest' hr]
      | error e =>
        rw [hr] at h
        simp at h

/-- Environment similarity: same chain length and identical key domains in
every scope of the chain. -/
def EnvSim (env env' : Env) : Prop :=
  env'.length = env.length ∧
  ∀ i k, scopeContains (env'.getD i []) k = scopeContains (env.getD i []) k

/-- Weaker similarity: key domains identical in every scope except possibly
the innermost (index 0) one. -/
def EnvTailSim (env env' : Env) : Prop :=
  env'.length = env.length ∧
  ∀ i k, scopeContains (env'.getD (i + 1) []) k
           = scopeContains (env.getD (i + 1) []) k

lemma envSim_refl (env : Env) : EnvSim env env := ⟨Eq.refl _, fun _ _ => Eq.refl _⟩

lemma envSim_trans {a b c : Env} (h1 : EnvSim a b) (h2 : EnvSim b c) :
    EnvSim a c :=
  ⟨h2.1.trans h1.1, fun i k => (h2.2 i k).trans (h1.2 i k)⟩

lemma envSim_tailSim {a b : Env} (h : EnvSim a b) : EnvTailSim a b :=
  ⟨h.1, fun i k => h.2 (i + 1) k⟩

lemma envTailSim_refl (env : Env) : EnvTailSim env env :=
  ⟨Eq.refl _, fun _ _ => Eq.refl _⟩

lemma envTailSim_trans {a b c : Env} (h1 : EnvTailSim a b)
    (h2 : EnvTailSim b c) : EnvTailSim a c :=
  ⟨h2.1.trans h1.1, fun i k => (h2.2 i k).trans (h1.2 i k)⟩

lemma envAssign_sim (env : Env) (tok : Token) (v : Option LiteralEnum)
    (env' : Env) (h : envAssign env tok v = .ok env') : EnvSim env env' := by
  cases hfc : firstContainingIdx env tok.lexeme with
  | none => rw [envAssign_none env tok v hfc] at h; simp at h
  | some i =>
    rw [envAssign_eq_set env tok v i hfc] at h
    simp at h
    subst h
    refine ⟨by simp, fun j k => ?_⟩
    by_cases hij : i = j
    · subst hij
      rw [getD_set_self _ _ _ _ (firstContainingIdx_lt_length env tok.lexeme i hfc)]
      rw [scopeContains_insert]
      by_cases hk : k = tok.lexeme
      · subst hk
        rw [firstContainingIdx_contains env tok.lexeme i hfc]
        simp
      · simp [hk]
    · rw [getD_set_ne _ _ _ _ _ hij]

lemma envDefine_tailSim (env : Env) (n : String) (v : Option LiteralEnum) :
    EnvTailSim env (envDefine env n v) := by
  cases env with
  | nil => exact envTailSim_refl _
  | cons sc rest => exact ⟨by simp [envDefine], fun i k => by simp [envDefine, List.getD]⟩

lemma evalExpr_sim (e : Expr) : ∀ env : Env, EnvSim env (evalExpr e env).2 := by
  induction e with
  | binary l op r ihl ihr =>
    intro env
    have hl := ihl env
    cases hle : evalExpr l env with
    | mk res1 env1 =>
      rw [hle] at hl
      cases res1 with
      | error er => simpa [evalExpr, hle] using hl
      | ok lres =>
        cases hval : lres.value with
        | none => simpa [evalExpr, hle, hval] using hl
        | some lv =>
          have hr := ihr env1
          cases hre : evalExpr r env1 with
          | mk res2 env2 =>
            rw [hre] at hr
            cases res2 with
            | error er => simpa [evalExpr, hle, hval, hre] using envSim_trans hl hr
            | ok rres =>
              cases hval2 : rres.value with
              | none => simpa [evalExpr, hle, hval, hre, hval2] using envSim_trans hl hr
              | some rv => simpa [evalExpr, hle, hval, hre, hval2] using envSim_trans hl hr
  | grouping e ih => intro env; simpa [evalExpr] using ih env
  | literal v => intro env; exact envSim_refl env
  | unary op r ih =>
    intro env
    have hr := ih env
    cases hre : evalExpr r env with
    | mk res1 env1 =>
      rw [hre] at hr
      cases res1 with
      | error er => simpa [evalExpr, hre] using hr
      | ok rres =>
        cases hval : rres.value with
        | none => simpa [evalExpr, hre, hval] using hr
        | some rv =>
          cases hop : op.token_type <;> simpa [evalExpr, hre, hval, hop] using hr
  | variable_ name =>
    intro env
    cases hg : envGet env name <;> simpa [evalExpr, hg] using envSim_refl env
  | assign name value ih =>
    intro env
    have hv := ih env
    cases hve : evalExpr value env with
    | mk res1 env1 =>
      rw [hve] at hv
      cases res1 with
      | error er => simpa [evalExpr, hve] using hv
      | ok evaluated =>
        cases ha : envAssign env1 name evaluated.value with
        | ok env2 =>
          simpa [evalExpr, hve, ha] using envSim_trans hv (envAssign_sim env1 name _ env2 ha)
        | error er => simpa [evalExpr, hve, ha] using hv

lemma execStep_tailSim
    (recur : List Stmt → Env → XOut × Env)
    (hrec : ∀ ss env, EnvTailSim env (recur ss env).2)
    (s : Stmt) (env : Env) :
    EnvTailSim env (execStep recur s env).2 := by
  cases s with
  | expression e =>
    have hsim := envSim_tailSim (evalExpr_sim e env)
    cases he : evalExpr e env with
    | mk res env' =>
      rw [he] at hsim
      cases res <;> simpa [execStep, he] using hsim
  | print e =>
    have hsim := envSim_tailSim (evalExpr_sim e env)
    cases he : evalExpr e env with
    | mk res env' =>
      rw [he] at hsim
      cases res <;> simpa [execStep, he] using hsim
  | var name initializer =>
    cases initializer with
    | some e =>
      have hsim := envSim_tailSim (evalExpr_sim e env)
      cases he : evalExpr e env with
      | mk res env' =>
        rw [he] at hsim
        cases res with
        | error er => simpa [execStep, he] using hsim
        | ok lit =>
          simpa [execStep, he] using
            envTailSim_trans hsim (envDefine_tailSim env' name.lexeme lit.value)
    | none => simpa [execStep] using envDefine_tailSim env name.lexeme none
  | block ss =>
    have hin := hrec ss ([] :: env)
    cases hex : recur ss ([] :: env) with
    | mk r env' =>
      rw [hex] at hin
      have hlen : env'.tail.length = env.length := by
        have := hin.1
        simp at this
        simp [this]
      have : EnvTailSim env env'.tail := by
        refine ⟨hlen, fun i k => ?_⟩
        rw [tail_getD]
        simpa [List.getD] using hin.2 (i + 1) k
      simpa [execStep, hex] using this

/-- `execStep` preserves scope domains at every index when the executed
statement is a `Block` (the child scope absorbs all declarations). -/
lemma execStep_block_sim
    (recur : List Stmt → Env → XOut × Env)
    (hrec : ∀ ss env, EnvTailSim env (recur ss env).2)
    (ss : List Stmt) (env : Env) :
    EnvSim env (execStep recur (.block ss) env).2 := by
  have hin := hrec ss ([] :: env)
  cases hex : recur ss ([] :: env) with
  | mk r env' =>
    rw [hex] at hin
    have hlen : env'.tail.length = env.length := by
      have := hin.1
      simp at this
      simp [this]
    have : EnvSim env env'.tail := by
      refine ⟨hlen, fun i k => ?_⟩
      rw [tail_getD]
      simpa [List.getD] using hin.2 i k
    simpa [execStep, hex] using this

lemma execStmts_tailSim :
    ∀ (fuel : Nat) (ss : List Stmt) (env : Env),
      EnvTailSim env (execStmts fuel ss env).2 := by
  intro fuel
  induction fuel with
  | zero => intro ss env; exact envTailSim_refl env
  | succ fuel ih =>
    intro ss env
    cases ss with
    | nil => exact envTailSim_refl env
    | cons s rest =>
      have hone := execStep_tailSim (execStmts fuel) (ih) s env
      cases hs : execStep (execStmts fuel) s env with
      | mk r env' =>
        rw [hs] at hone
        cases r with
        | ok => simpa [execStmts, hs] using envTailSim_trans hone (ih rest env')
        | err e => simpa [execStmts, hs] using hone
        | fuelOut => simpa [execStmts, hs] using hone

lemma execStmts_nil_snd (fuel : Nat) (env : Env) :
    (execStmts fuel [] env).2 = env := by
  cases fuel <;> rfl

/-- C4: executing a `Block` against an environment chain E preserves E's
length and the key domain of every scope of E — no name declared inside
the block survives into E, since `VarDeclaration` lands in the discarded
child scope — while an `Assign` inside the block to a name bound somewhere
in E rewrites that binding, and the new value persists after the block. -/
theorem block_scoping_and_outer_assign :
    (∀ (fuel : Nat) (ss : List Stmt) (env : Env),
       ((execStmts fuel [Stmt.block ss] env).2).length = env.length ∧
       ∀ i k, scopeContains ((execStmts fuel [Stmt.block ss] env).2.getD i []) k
                = scopeContains (env.getD i []) k) ∧
    (∀ (fuel : Nat) (env : Env) (nameTok : Token) (v : LiteralEnum),
       (firstContainingIdx env nameTok.lexeme).isSome = true →
       ∃ env', execStmts (fuel + 3)
           [Stmt.block [Stmt.expression (Expr.assign nameTok (Expr.literal (some v)))]]
           env
           = (XOut.ok, env') ∧
         envGet env' nameTok = .ok (some v) ∧ env'.length = env.length) := by
  constructor
  · intro fuel ss env
    cases fuel with
    | zero => exact ⟨rfl, fun _ _ => rfl⟩
    | succ fuel =>
      have hsim := execStep_block_sim (execStmts fuel) (execStmts_tailSim fuel) ss env
      cases hs : execStep (execStmts fuel) (.block ss) env with
      | mk r env' =>
        rw [hs] at hsim
        cases r with
        | ok =>
          have h2 : execStmts (fuel + 1) [Stmt.block ss] env
              = execStmts fuel [] env' := by
            simp [execStmts, hs]
          rw [h2, execStmts_nil_snd]
          exact ⟨hsim.1, hsim.2⟩
        | err e =>
          have h2 : execStmts (fuel + 1) [Stmt.block ss] env = (.err e, env') := by
            simp [execStmts, hs]
          rw [h2]
          exact ⟨hsim.1, hsim.2⟩
        | fuelOut =>
          have h2 : execStmts (fuel + 1) [Stmt.block ss] env = (.fuelOut, env') := by
            simp [execStmts, hs]
          rw [h2]
          exact ⟨hsim.1, hsim.2⟩
  · intro fuel env nameTok v hc
    obtain ⟨i, hfc⟩ : ∃ i, firstContainingIdx env nameTok.lexeme = some i := by
      cases hx : firstContainingIdx env nameTok.lexeme with
      | none => rw [hx] at hc; simp at hc
      | some i => exact ⟨i, rfl⟩
    have hassign : envAssign env nameTok (some v)
        = .ok (env.set i (scopeInsert (env.getD i []) nameTok.lexeme (some v))) :=
      envAssign_eq_set env nameTok (some v) i hfc
    refine ⟨env.set i (scopeInsert (env.getD i []) nameTok.lexeme (some v)), ?_,
      envAssign_get env nameTok (some v) _ hassign, by simp⟩
    have hassign2 : envAssign ([] :: env) nameTok (some v)
        = .ok ([] :: env.set i (scopeInsert (env.getD i []) nameTok.lexeme (some v))) := by
      simp [envAssign, scopeContains, scopeGet, hassign]
    simp [execStmts, execStep, evalExpr, hassign2]

/-- C4 witness: in a one-scope chain binding `a`, a block that assigns
`a = 2` mutates the outer binding permanently. -/
theorem block_scoping_and_outer_assign_witness :
    ∃ env', execStmts 3
        [Stmt.block [Stmt.expression (Expr.assign ⟨.identifier, "a", none, 1⟩
          (Expr.literal (some (.num 2))))]] [[("a", some (.num 1))]]
        = (XOut.ok, env') ∧
      envGet env' ⟨.identifier, "a", none, 1⟩ = .ok (some (.num 2)) ∧
      env'.length = 1 :=
  block_scoping_and_outer_assign.2 0 [[("a", some (.num 1))]]
    ⟨.identifier, "a", none, 1⟩ (.num 2) (by decide)

/-- print_ast.rs number rendering (`n.to_string()`).  The claims exercise
only integral values, printed as their decimal integer form exactly as
Rust's `f64` Display does; non-integral rationals (never produced by the
claims) are rendered as a fraction. -/
def numToString (n : ℚ) : String :=
  if n.den = 1 then toString n.num else toString n.num ++ "/" ++ toString n.den

/-- tool/print_ast.rs `AstPrinter` with `parenthesize` inlined (it writes
"(", the name, then a space before each printed child, then ")").  The
`Variable`/`Assign` visitor methods are absent from print_ast.rs; those
arms are unused by every claim and print nothing. -/
def printExpr : Expr → String
  | .binary l op r =>
    "(" ++ op.lexeme ++ " " ++ printExpr l ++ " " ++ printExpr r ++ ")"
  | .grouping e => "(group " ++ printExpr e ++ ")"
  | .literal v =>
    match v with
    | some (.str s) => s
    | some (.num n) => numToString n
    | some (.boolean b) => if b then "true" else "false"
    | some .nan => "NaN"
    | none => "nil"
  | .unary op r => "(" ++ op.lexeme ++ " " ++ printExpr r ++ ")"
  | .variable_ _ => ""
  | .assign _ _ => ""

/-- scanner.rs `Scanner` state.  The source is a character list.  Two
families of operations follow: the character-level ones (`isAtEnd`,
`advance`, `lexemeText`, ...) index uniformly by characters and are
faithful to scanner.rs exactly on ASCII input, where Rust's byte offsets
and character positions coincide — every concrete input they are
evaluated at below is ASCII; and the byte-faithful ones (`bIsAtEnd`,
`bAdvance`, `bLexemeText`, ...) reproduce scanner.rs's mixing of byte
lengths (`source.len()`) with character indexing (`chars().nth`) and
byte slicing, including the panics that mixing makes reachable on
multi-byte characters. -/
structure ScanState where
  source : List Char
  tokens : List Token
  start : Nat
  current : Nat
  line : Nat
  errors : List (Nat × String)
deriving Repr

/-- scanner.rs `is_at_end`, character-level (Rust compares against the
BYTE length; equal to the character count only on ASCII sources — see
`ScanState.bIsAtEnd` for the byte-faithful version). -/
def ScanState.isAtEnd (s : ScanState) : Bool :=
  decide (s.source.length ≤ s.current)

/-- scanner.rs `peek` (NUL at end of input). -/
def ScanState.peekc (s : ScanState) : Char :=
  if s.isAtEnd then '\x00' else s.source.getD s.current '\x00'

/-- scanner.rs `peek_next`. -/
def ScanState.peekNext (s : ScanState) (count : Nat) : Char :=
  if s.source.length ≤ s.current + count then '\x00'
  else s.source.getD (s.current + count) '\x00'

/-- scanner.rs `advance`, character-level: on ASCII sources `current` is
always in bounds when the source calls it, so the `getD` default is
unreachable (see `ScanState.bAdvance` for the byte-faithful version,
where the `unwrap` panic is reachable). -/
def ScanState.advance (s : ScanState) : Char × ScanState :=
  (s.source.getD s.current '\x00', { s with current := s.current + 1 })

/-- scanner.rs `match_next`. -/
def ScanState.matchNext (s : ScanState) (expected : Char) : Bool × ScanState :=
  if s.isAtEnd then (false, s)
  else if s.source.getD s.current '\x00' ≠ expected then (false, s)
  else (true, { s with current := s.current + 1 })

/-- `self.source[self.start..self.current]`, character-level: Rust slices
BYTES at these offsets, which selects the same characters exactly on
ASCII sources (see `ScanState.bLexemeText` for the byte-faithful
version). -/
def ScanState.lexemeText (s : ScanState) : String :=
  String.mk ((s.source.drop s.start).take (s.current - s.start))

/-- scanner.rs `add_token`. -/
def ScanState.addToken (s : ScanState) (tt : TokenTypes) : ScanState :=
  { s with tokens := s.tokens ++ [⟨tt, s.lexemeText, none, s.line⟩] }

/-- scanner.rs `add_token_with_value`. -/
def ScanState.addTokenWithValue (s : ScanState) (tt : TokenTypes)
    (lit : LiteralEnum) : ScanState :=
  { s with tokens := s.tokens ++ [⟨tt, s.lexemeText, some lit, s.line⟩] }

/-- The `//` comment loop of `scan_single_token`.  Fuel: one unit per
consumed character always suffices (each iteration advances). -/
def commentLoop : Nat → ScanState → ScanState
  | 0, s => s
  | fuel + 1, s =>
    if s.peekc ≠ '\n' ∧ s.isAtEnd = false then commentLoop fuel (s.advance).2
    else s

/-- The body loop of scanner.rs `string` (newlines bump the line counter). -/
def stringLoop : Nat → ScanState → ScanState
  | 0, s => s
  | fuel + 1, s =>
    if s.peekc ≠ '\"' ∧ s.isAtEnd = false then
      stringLoop fuel
        ((if s.peekc = '\n' then { s with line := s.line + 1 } else s).advance).2
    else s

/-- The digit-consuming loop of scanner.rs `number`. -/
def digitsLoop : Nat → ScanState → ScanState
  | 0, s => s
  | fuel + 1, s => if s.peekc.isDigit then digitsLoop fuel (s.advance).2 else s

/-- The identifier loop of scanner.rs `identifier` (ASCII alphanumerics
and underscore). -/
def identLoop : Nat → ScanState → ScanState
  | 0, s => s
  | fuel + 1, s =>
    if s.peekc.isAlphanum ∨ s.peekc = '_' then identLoop fuel (s.advance).2
    else s

/-- scanner.rs `string` after the opening quote was consumed. -/
def scanString (s : ScanState) : ScanState :=
  let s1 := stringLoop (s.source.length - s.current) s
  if s1.isAtEnd then
    { s1 with errors := s1.errors ++ [(s1.line, "Unterminated string.")] }
  else
    let s2 := (s1.advance).2
    let value := String.mk
      ((s2.source.drop (s2.start + 1)).take (s2.current - 1 - (s2.start + 1)))
    s2.addTokenWithValue .string (.str value)

/-- Numeric value of a digit string. -/
def digitsVal (cs : List Char) : Nat :=
  cs.foldl (fun acc c => acc * 10 + (c.toNat - 48)) 0

/-- Model of `number.parse::<f64>().unwrap()` on the lexemes the scanner
produces (digits, optionally one dot followed by digits): the exact
rational `digits / 10 ^ (number of fractional digits)`. -/
def parseNum (text : String) : ℚ :=
  let cs := text.toList
  let intPart := cs.takeWhile (fun c => c ≠ '.')
  let fracPart := (cs.dropWhile (fun c => c ≠ '.')).drop 1
  mkRat (digitsVal (intPart ++ fracPart)) (10 ^ fracPart.length)

/-- scanner.rs `number` after the first digit was consumed. -/
def scanNumber (s : ScanState) : ScanState :=
  let s1 := digitsLoop (s.source.length - s.current) s
  let s2 :=
    if s1.peekc = '.' ∧ (s1.peekNext 1).isDigit then
      digitsLoop (s1.source.length - (s1.advance).2.current) (s1.advance).2
    else s1
  s2.addTokenWithValue .number (.num (parseNum s2.lexemeText))

/-- scanner.rs `KEYWORDS_MAP`. -/
def keywordLookup : String → Option TokenTypes
  | "and" => some .and
  | "class" => some .class_
  | "else" => some .else_
  | "false" => some .false_
  | "for" => some .for_
  | "fun" => some .fun_
  | "if" => some .if_
  | "nil" => some .nil
  | "or" => some .or
  | "print" => some .print
  | "return" => some .return_
  | "super" => some .super_
  | "this" => some .this_
  | "true" => some .true_
  | "var" => some .var
  | "while" => some .while_
  | _ => none

/-- scanner.rs `identifier` after the first character was consumed. -/
def scanIdentifier (s : ScanState) : ScanState :=
  let s1 := identLoop (s.source.length - s.current) s
  match keywordLookup s1.lexemeText with
  | some tt => s1.addToken tt
  | none => s1.addToken .identifier

/-- scanner.rs `scan_single_token`: consume one character, dispatch. -/
def scanSingleToken (s0 : ScanState) : ScanState :=
  let p := s0.advance
  let chr := p.1
  let s := p.2
  if chr = '(' then s.addToken .leftParen
  else if chr = ')' then s.addToken .rightParen
  else if chr = Char.ofNat 123 then s.addToken .leftBrace
  else if chr = Char.ofNat 125 then s.addToken .rightBrace
  else if chr = ',' then s.addToken .comma
  else if chr = '.' then s.addToken .dot
  else if chr = '-' then s.addToken .minus
  else if chr = '+' then s.addToken .plus
  else if chr = ';' then s.addToken .semicolon
  else if chr = '*' then s.addToken .star
  else if chr = '!' then
    match s.matchNext '=' with
    | (true, s1) => s1.addToken .bangEqual
    | (false, s1) => s1.addToken .bang
  else if chr = '=' then
    match s.matchNext '=' with
    | (true, s1) => s1.addToken .equalEqual
    | (false, s1) => s1.addToken .equal
  else if chr = '<' then
    match s.matchNext '=' with
    | (true, s1) => s1.addToken .lessEqual
    | (false, s1) => s1.addToken .less
  else if chr = '>' then
    match s.matchNext '=' with
    | (true, s1) => s1.addToken .greaterEqual
    | (false, s1) => s1.addToken .greater
  else if chr = '/' then
    match s.matchNext '/' with
    | (true, s1) => commentLoop (s1.source.length - s1.current) s1
    | (false, s1) => s1.addToken .slash
  else if chr = '\t' ∨ chr = '\r' ∨ chr = ' ' then s
  else if chr = '\n' then { s with line := s.line + 1 }
  else if chr = '\"' then scanString s
  else if '0' ≤ chr ∧ chr ≤ '9' then scanNumber s
  else if ('a' ≤ chr ∧ chr ≤ 'z') ∨ ('A' ≤ chr ∧ chr ≤ 'Z') ∨ chr = '_' then
    scanIdentifier s
  else { s with errors := s.errors ++ [(s.line, "Unexpected character.")] }

/-- scanner.rs `scan_tokens` main loop.  Fuel: one unit per consumed
character plus one suffices (proved in `scanLoop_complete`). -/
def scanLoop : Nat → ScanState → ScanState
  | 0, s => s
  | fuel + 1, s =>
    if s.isAtEnd = false then
      scanLoop fuel (scanSingleToken { s with start := s.current })
    else s

def initScan (src : List Char) : ScanState := ⟨src, [], 0, 0, 1, []⟩

/-- scanner.rs `scan_tokens`: scan everything, then append the single
End-of-Input token carrying the final line number. -/
def scanTokensSt (src : List Char) : ScanState :=
  let s := scanLoop (src.length + 1) (initScan src)
  { s with tokens := s.tokens ++ [⟨.eof, "", none, s.line⟩] }

/-- Token list extension that never introduces an End-of-Input token. -/
def TokensExtendedNoEof (old new : List Token) : Prop :=
  ∃ extra, new = old ++ extra ∧ ∀ t ∈ extra, t.token_type ≠ .eof

lemma tokExt_refl (tks : List Token) : TokensExtendedNoEof tks tks :=
  ⟨[], by simp, by simp⟩

lemma tokExt_trans {a b c : List Token} (h1 : TokensExtendedNoEof a b)
    (h2 : TokensExtendedNoEof b c) : TokensExtendedNoEof a c := by
  obtain ⟨e1, he1, hn1⟩ := h1
  obtain ⟨e2, he2, hn2⟩ := h2
  refine ⟨e1 ++ e2, by simp [he2, he1], ?_⟩
  intro t ht
  rcases List.mem_append.mp ht with h | h
  · exact hn1 t h
  · exact hn2 t h

/-- Facts preserved by every scanner step: the source is fixed, tokens are
only appended (never an Eof), and the cursor never moves backwards. -/
def ScanStep (s s' : ScanState) : Prop :=
  s'.source = s.source ∧ TokensExtendedNoEof s.tokens s'.tokens ∧
  s.current ≤ s'.current

lemma scanStep_refl (s : ScanState) : ScanStep s s :=
  ⟨Eq.refl _, tokExt_refl _, Nat.le_refl _⟩

lemma scanStep_trans {a b c : ScanState} (h1 : ScanStep a b)
    (h2 : ScanStep b c) : ScanStep a c :=
  ⟨h2.1.trans h1.1, tokExt_trans h1.2.1 h2.2.1, Nat.le_trans h1.2.2 h2.2.2⟩

lemma advance_step (s : ScanState) : ScanStep s (s.advance).2 :=
  ⟨rfl, tokExt_refl _, Nat.le_succ _⟩

lemma addToken_step (s : ScanState) (tt : TokenTypes) (h : tt ≠ .eof) :
    ScanStep s (s.addToken tt) :=
  ⟨rfl, ⟨[⟨tt, s.lexemeText, none, s.line⟩], rfl, by simpa using h⟩, Nat.le_refl _⟩

lemma addTokenWithValue_step (s : ScanState) (tt : TokenTypes)
    (v : LiteralEnum) (h : tt ≠ .eof) :
    ScanStep s (s.addTokenWithValue tt v) :=
  ⟨rfl, ⟨[⟨tt, s.lexemeText, some v, s.line⟩], rfl, by simpa using h⟩, Nat.le_refl _⟩

lemma matchNext_step (s : ScanState) (c : Char) :
    ScanStep s (s.matchNext c).2 := by
  unfold ScanState.matchNext
  split
  · exact scanStep_refl s
  · split
    · exact scanStep_refl s
    · exact ⟨rfl, tokExt_refl _, Nat.le_succ _⟩

lemma commentLoop_step : ∀ (fuel : Nat) (s : ScanState),
    ScanStep s (commentLoop fuel s) := by
  intro fuel
  induction fuel with
  | zero => intro s; exact scanStep_refl s
  | succ fuel ih =>
    intro s
    by_cases h : s.peekc ≠ '\n' ∧ s.isAtEnd = false
    · simp only [commentLoop, if_pos h]
      exact scanStep_trans (advance_step s) (ih (s.advance).2)
    · simp only [commentLoop, if_neg h]
      exact scanStep_refl s

lemma stringLoop_step : ∀ (fuel : Nat) (s : ScanState),
    ScanStep s (stringLoop fuel s) := by
  intro fuel
  induction fuel with
  | zero => intro s; exact scanStep_refl s
  | succ fuel ih =>
    intro s
    by_cases h : s.peekc ≠ '\"' ∧ s.isAtEnd = false
    · simp only [stringLoop, if_pos h]
      by_cases hn : s.peekc = '\n'
      · simp only [if_pos hn]
        have hb : ScanStep s (({ s with line := s.line + 1 }).advance).2 :=
          ⟨rfl, tokExt_refl _, Nat.le_succ _⟩
        exact scanStep_trans hb (ih _)
      · simp only [if_neg hn]
        exact scanStep_trans (advance_step s) (ih (s.advance).2)
    · simp only [stringLoop, if_neg h]
      exact scanStep_refl s

lemma digitsLoop_step : ∀ (fuel : Nat) (s : ScanState),
    ScanStep s (digitsLoop fuel s) := by
  intro fuel
  induction fuel with
  | zero => intro s; exact scanStep_refl s
  | succ fuel ih =>
    intro s
    by_cases h : s.peekc.isDigit = true
    · simp only [digitsLoop, if_pos h]
      exact scanStep_trans (advance_step s) (ih (s.advance).2)
    · simp only [digitsLoop, if_neg h]
      exact scanStep_refl s

lemma identLoop_step : ∀ (fuel : Nat) (s : ScanState),
    ScanStep s (identLoop fuel s) := by
  intro fuel
  induction fuel with
  | zero => intro s; exact scanStep_refl s
  | succ fuel ih =>
    intro s
    by_cases h : s.peekc.isAlphanum = true ∨ s.peekc = '_'
    · simp only [identLoop, if_pos h]
      exact scanStep_trans (advance_step s) (ih (s.advance).2)
    · simp only [identLoop, if_neg h]
      exact scanStep_refl s

lemma scanString_step (s : ScanState) : ScanStep s (scanString s) := by
  have h1 := stringLoop_step (s.source.length - s.current) s
  unfold scanString
  dsimp only
  by_cases hend : (stringLoop (s.source.length - s.current) s).isAtEnd = true
  · simp only [if_pos hend]
    exact scanStep_trans h1 ⟨rfl, tokExt_refl _, Nat.le_refl _⟩
  · simp only [if_neg hend]
    exact scanStep_trans h1 (scanStep_trans (advance_step _)
      (addTokenWithValue_step _ .string _ (by decide)))

lemma scanNumber_step (s : ScanState) : ScanStep s (scanNumber s) := by
  have h1 := digitsLoop_step (s.source.length - s.current) s
  unfold scanNumber
  dsimp only
  by_cases hdot : (digitsLoop (s.source.length - s.current) s).peekc = '.' ∧
      ((digitsLoop (s.source.length - s.current) s).peekNext 1).isDigit = true
  · simp only [if_pos hdot]
    exact scanStep_trans (scanStep_trans h1 (scanStep_trans (advance_step _)
      (digitsLoop_step _ _))) (addTokenWithValue_step _ .number _ (by decide))
  · simp only [if_neg hdot]
    exact scanStep_trans h1 (addTokenWithValue_step _ .number _ (by decide))

lemma keywordLookup_ne_eof (t : String) (tt : TokenTypes)
    (h : keywordLookup t = some tt) : tt ≠ .eof := by
  unfold keywordLookup at h
  split at h <;> first
    | (injection h with h; subst h; decide)
    | exact Option.noConfusion h

lemma scanIdentifier_step (s : ScanState) : ScanStep s (scanIdentifier s) := by
  have h1 := identLoop_step (s.source.length - s.current) s
  unfold scanIdentifier
  dsimp only
  cases hk : keywordLookup (identLoop (s.source.length - s.current) s).lexemeText with
  | some tt =>
    simp only [hk]
    exact scanStep_trans h1 (addToken_step _ tt (keywordLookup_ne_eof _ tt hk))
  | none =>
    simp only [hk]
    exact scanStep_trans h1 (addToken_step _ .identifier (by decide))

lemma matchTwo_step (s : ScanState) (c : Char) (t1 t2 : TokenTypes)
    (h1 : t1 ≠ .eof) (h2 : t2 ≠ .eof) :
    ScanStep s (match s.matchNext c with
                | (true, s1) => s1.addToken t1
                | (false, s1) => s1.addToken t2) := by
  have hstep := matchNext_step s c
  cases hm : s.matchNext c with
  | mk b s1 =>
    rw [hm] at hstep
    cases b
    · exact scanStep_trans hstep (addToken_step s1 t2 h2)
    · exact scanStep_trans hstep (addToken_step s1 t1 h1)

lemma matchComment_step (s : ScanState) :
    ScanStep s (match s.matchNext '/' with
                | (true, s1) => commentLoop (s1.source.length - s1.current) s1
                | (false, s1) => s1.addToken .slash) := by
  have hstep := matchNext_step s '/'
  cases hm : s.matchNext '/' with
  | mk b s1 =>
    rw [hm] at hstep
    cases b
    · exact scanStep_trans hstep (addToken_step s1 .slash (by decide))
    · exact scanStep_trans hstep (commentLoop_step _ s1)

set_option maxHeartbeats 2000000 in
lemma scanSingleToken_step (s0 : ScanState) :
    ScanStep { s0 with current := s0.current + 1 } (scanSingleToken s0) := by
  unfold scanSingleToken
  dsimp only [ScanState.advance]
  generalize s0.source.getD s0.current '\x00' = chr
  by_cases h1 : chr = '('
  · rw [if_pos h1]; exact addToken_step _ _ (by decide)
  rw [if_neg h1]
  by_cases h2 : chr = ')'
  · rw [if_pos h2]; exact addToken_step _ _ (by decide)
  rw [if_neg h2]
  by_cases h3 : chr = Char.ofNat 123
  · rw [if_pos h3]; exact addToken_step _ _ (by decide)
  rw [if_neg h3]
  by_cases h4 : chr = Char.ofNat 125
  · rw [if_pos h4]; exact addToken_step _ _ (by decide)
  rw [if_neg h4]
  by_cases h5 : chr = ','
  · rw [if_pos h5]; exact addToken_step _ _ (by decide)
  rw [if_neg h5]
  by_cases h6 : chr = '.'
  · rw [if_pos h6]; exact addToken_step _ _ (by decide)
  rw [if_neg h6]
  by_cases h7 : chr = '-'
  · rw [if_pos h7]; exact addToken_step _ _ (by decide)
  rw [if_neg h7]
  by_cases h8 : chr = '+'
  · rw [if_pos h8]; exact addToken_step _ _ (by decide)
  rw [if_neg h8]
  by_cases h9 : chr = ';'
  · rw [if_pos h9]; exact addToken_step _ _ (by decide)
  rw [if_neg h9]
  by_cases h10 : chr = '*'
  · rw [if_pos h10]; exact addToken_step _ _ (by decide)
  rw [if_neg h10]
  by_cases h11 : chr = '!'
  · rw [if_pos h11]; exact matchTwo_step _ _ _ _ (by decide) (by decide)
  rw [if_neg h11]
  by_cases h12 : chr = '='
  · rw [if_pos h12]; exact matchTwo_step _ _ _ _ (by decide) (by decide)
  rw [if_neg h12]
  by_cases h13 : chr = '<'
  · rw [if_pos h13]; exact matchTwo_step _ _ _ _ (by decide) (by decide)
  rw [if_neg h13]
  by_cases h14 : chr = '>'
  · rw [if_pos h14]; exact matchTwo_step _ _ _ _ (by decide) (by decide)
  rw [if_neg h14]
  by_cases h15 : chr = '/'
  · rw [if_pos h15]; exact matchComment_step _
  rw [if_neg h15]
  by_cases h16 : chr = '\t' ∨ chr = '\x0d' ∨ chr = ' '
  · rw [if_pos h16]; exact scanStep_refl _
  rw [if_neg h16]
  by_cases h17 : chr = '\n'
  · rw [if_pos h17]; exact ⟨rfl, tokExt_refl _, Nat.le_refl _⟩
  rw [if_neg h17]
  by_cases h18 : chr = '\"'
  · rw [if_pos h18]; exact scanString_step _
  rw [if_neg h18]
  by_cases h19 : '0' ≤ chr ∧ chr ≤ '9'
  · rw [if_pos h19]; exact scanNumber_step _
  rw [if_neg h19]
  by_cases h20 : ('a' ≤ chr ∧ chr ≤ 'z') ∨ ('A' ≤ chr ∧ chr ≤ 'Z') ∨ chr = '_'
  · rw [if_pos h20]; exact scanIdentifier_step _
  rw [if_neg h20]
  exact ⟨rfl, tokExt_refl _, Nat.le_refl _⟩

lemma scanLoop_step : ∀ (fuel : Nat) (s : ScanState),
    ScanStep s (scanLoop fuel s) := by
  intro fuel
  induction fuel with
  | zero => intro s; exact scanStep_refl s
  | succ fuel ih =>
    intro s
    by_cases h : s.isAtEnd = false
    · simp only [scanLoop, if_pos h]
      have h1 : ScanStep s { s with start := s.current, current := s.current + 1 } :=
        ⟨rfl, tokExt_refl _, Nat.le_succ _⟩
      exact scanStep_trans (scanStep_trans h1
          (scanSingleToken_step { s with start := s.current }))
        (ih (scanSingleToken { s with start := s.current }))
    · simp only [scanLoop, if_neg h]
      exact scanStep_refl s

lemma scanLoop_complete : ∀ (fuel : Nat) (s : ScanState),
    s.source.length - s.current < fuel → (scanLoop fuel s).isAtEnd = true := by
  intro fuel
  induction fuel with
  | zero => intro s h; exact absurd h (Nat.not_lt_zero _)
  | succ fuel ih =>
    intro s h
    by_cases hend : s.isAtEnd = false
    · simp only [scanLoop, if_pos hend]
      apply ih
      have hstep := scanSingleToken_step { s with start := s.current }
      have hsrc : (scanSingleToken { s with start := s.current }).source = s.source :=
        hstep.1
      have hcur : s.current + 1 ≤ (scanSingleToken { s with start := s.current }).current :=
        hstep.2.2
      have hlt : s.current < s.source.length := by
        unfold ScanState.isAtEnd at hend
        simpa using hend
      rw [hsrc]
      omega
    · simp only [scanLoop, if_neg hend]
      simpa using hend

/-- For the character-level scanner model (faithful to scanner.rs on
ASCII sources): scanning terminates with the entire input consumed,
never returns an error (lexical problems go to the `errors` side channel
while scanning continues), and the token list is an Eof-free prefix
followed by exactly one End-of-Input token carrying the final line
number.  On non-ASCII sources the real scanner panics instead — see
`scan_tokens_panics_on_multibyte`. -/
theorem scan_tokens_terminates_single_eof (src : List Char) :
    ∃ pre, (scanTokensSt src).tokens
        = pre ++ [⟨.eof, "", none, (scanLoop (src.length + 1) (initScan src)).line⟩] ∧
      (∀ t ∈ pre, t.token_type ≠ .eof) ∧
      (scanLoop (src.length + 1) (initScan src)).isAtEnd = true := by
  have h := scanLoop_step (src.length + 1) (initScan src)
  obtain ⟨extra, hex, hne⟩ := h.2.1
  refine ⟨(scanLoop (src.length + 1) (initScan src)).tokens, rfl, ?_, ?_⟩
  · intro t ht
    rw [hex] at ht
    exact hne t (by simpa [initScan] using ht)
  · exact scanLoop_complete _ _ (by simp [initScan])

/-- Rust's `self.source.len()`: the UTF-8 BYTE length of the source,
while `chars().nth(...)` counts characters. -/
def byteLen (cs : List Char) : Nat := (cs.map Char.utf8Size).sum

/-- Drop `n` BYTES from a character list; `none` when `n` is not a
character boundary or exceeds the data (Rust byte slicing panics there). -/
def dropBytes : List Char → Nat → Option (List Char)
  | cs, 0 => some cs
  | [], _ + 1 => none
  | c :: cs, n + 1 =>
    if c.utf8Size ≤ n + 1 then dropBytes cs (n + 1 - c.utf8Size) else none

/-- Take `n` BYTES from a character list as whole characters; `none` when
`n` is not a character boundary or exceeds the data. -/
def takeBytes : List Char → Nat → Option (List Char)
  | _, 0 => some []
  | [], _ + 1 => none
  | c :: cs, n + 1 =>
    if c.utf8Size ≤ n + 1 then (takeBytes cs (n + 1 - c.utf8Size)).map (c :: ·)
    else none

/-- Rust `&source[start..stop]` with BYTE offsets; `none` models the
slicing panics (reversed range, non-boundary offset, out of range). -/
def sliceBytes (cs : List Char) (start stop : Nat) : Option (List Char) :=
  if stop < start then none
  else
    match dropBytes cs start with
    | some rest => takeBytes rest (stop - start)
    | none => none

/-- scanner.rs `is_at_end`, byte-faithful: `self.current >= self.source.len()`
compares the character-counting cursor against the BYTE length. -/
def ScanState.bIsAtEnd (s : ScanState) : Bool :=
  decide (byteLen s.source ≤ s.current)

/-- scanner.rs `advance`, byte-faithful:
`self.source.chars().nth(self.current).unwrap()` — a CHARACTER lookup
whose `unwrap` panics (`none`) when the byte-counting `is_at_end` guard
let the cursor run past the last character. -/
def ScanState.bAdvance (s : ScanState) : Option (Char × ScanState) :=
  match s.source[s.current]? with
  | some c => some (c, { s with current := s.current + 1 })
  | none => none

/-- scanner.rs `peek`, byte-faithful (the `unwrap` after the byte-length
guard can panic). -/
def ScanState.bPeekc (s : ScanState) : Option Char :=
  if s.bIsAtEnd then some '\x00' else s.source[s.current]?

/-- scanner.rs `peek_next`, byte-faithful. -/
def ScanState.bPeekNext (s : ScanState) (count : Nat) : Option Char :=
  if byteLen s.source ≤ s.current + count then some '\x00'
  else s.source[s.current + count]?

/-- scanner.rs `match_next`, byte-faithful. -/
def ScanState.bMatchNext (s : ScanState) (expected : Char) :
    Option (Bool × ScanState) :=
  if s.bIsAtEnd then some (false, s)
  else
    match s.source[s.current]? with
    | none => none
    | some c =>
      if c ≠ expected then some (false, s)
      else some (true, { s with current := s.current + 1 })

/-- `self.source[self.start..self.current]`, byte-faithful: BYTE slicing
at the character-counting offsets. -/
def ScanState.bLexemeText (s : ScanState) : Option String :=
  (sliceBytes s.source s.start s.current).map fun cs => String.mk cs

/-- scanner.rs `add_token`, byte-faithful. -/
def ScanState.bAddToken (s : ScanState) (tt : TokenTypes) : Option ScanState :=
  s.bLexemeText.map fun text =>
    { s with tokens := s.tokens ++ [⟨tt, text, none, s.line⟩] }

/-- scanner.rs `add_token_with_value`, byte-faithful. -/
def ScanState.bAddTokenWithValue (s : ScanState) (tt : TokenTypes)
    (lit : LiteralEnum) : Option ScanState :=
  s.bLexemeText.map fun text =>
    { s with tokens := s.tokens ++ [⟨tt, text, some lit, s.line⟩] }

/-- The `//` comment loop, byte-faithful (`peek` first, then the
byte-counting `is_at_end`, then `advance`). -/
def bCommentLoop : Nat → ScanState → Option ScanState
  | 0, s => some s
  | fuel + 1, s =>
    match s.bPeekc with
    | none => none
    | some c =>
      if c ≠ '\n' ∧ s.bIsAtEnd = false then
        match s.bAdvance with
        | none => none
        | some (_, s') => bCommentLoop fuel s'
      else some s

/-- The body loop of scanner.rs `string`, byte-faithful. -/
def bStringLoop : Nat → ScanState → Option ScanState
  | 0, s => some s
  | fuel + 1, s =>
    match s.bPeekc with
    | none => none
    | some c =>
      if c ≠ '\"' ∧ s.bIsAtEnd = false then
        match (if c = '\n' then { s with line := s.line + 1 } else s).bAdvance with
        | none => none
        | some (_, s') => bStringLoop fuel s'
      else some s

/-- The digit loop of scanner.rs `number`, byte-faithful. -/
def bDigitsLoop : Nat → ScanState → Option ScanState
  | 0, s => some s
  | fuel + 1, s =>
    match s.bPeekc with
    | none => none
    | some c =>
      if c.isDigit then
        match s.bAdvance with
        | none => none
        | some (_, s') => bDigitsLoop fuel s'
      else some s

/-- The identifier loop of scanner.rs `identifier`, byte-faithful. -/
def bIdentLoop : Nat → ScanState → Option ScanState
  | 0, s => some s
  | fuel + 1, s =>
    match s.bPeekc with
    | none => none
    | some c =>
      if c.isAlphanum ∨ c = '_' then
        match s.bAdvance with
        | none => none
        | some (_, s') => bIdentLoop fuel s'
      else some s

/-- scanner.rs `string` after the opening quote, byte-faithful. -/
def bScanString (s : ScanState) : Option ScanState :=
  match bStringLoop (byteLen s.source - s.current) s with
  | none => none
  | some s1 =>
    if s1.bIsAtEnd then
      some { s1 with errors := s1.errors ++ [(s1.line, "Unterminated string.")] }
    else
      match s1.bAdvance with
      | none => none
      | some (_, s2) =>
        match sliceBytes s2.source (s2.start + 1) (s2.current - 1) with
        | none => none
        | some value => s2.bAddTokenWithValue .string (.str (String.mk value))

/-- scanner.rs `number` after the first digit, byte-faithful
(short-circuit `&&`: `peek_next` only runs when `peek` saw a dot). -/
def bScanNumber (s : ScanState) : Option ScanState :=
  match bDigitsLoop (byteLen s.source - s.current) s with
  | none => none
  | some s1 =>
    match s1.bPeekc with
    | none => none
    | some c =>
      if c = '.' then
        match s1.bPeekNext 1 with
        | none => none
        | some c2 =>
          if c2.isDigit then
            match s1.bAdvance with
            | none => none
            | some (_, s1') =>
              match bDigitsLoop (byteLen s1'.source - s1'.current) s1' with
              | none => none
              | some s2 =>
                match s2.bLexemeText with
                | none => none
                | some text => s2.bAddTokenWithValue .number (.num (parseNum text))
          else
            match s1.bLexemeText with
            | none => none
            | some text => s1.bAddTokenWithValue .number (.num (parseNum text))
      else
        match s1.bLexemeText with
        | none => none
        | some text => s1.bAddTokenWithValue .number (.num (parseNum text))

/-- scanner.rs `identifier` after the first character, byte-faithful. -/
def bScanIdentifier (s : ScanState) : Option ScanState :=
  match bIdentLoop (byteLen s.source - s.current) s with
  | none => none
  | some s1 =>
    match s1.bLexemeText with
    | none => none
    | some text =>
      match keywordLookup text with
      | some tt => s1.bAddToken tt
      | none => s1.bAddToken .identifier

/-- scanner.rs `scan_single_token`, byte-faithful. -/
def bScanSingleToken (s0 : ScanState) : Option ScanState :=
  match s0.bAdvance with
  | none => none
  | some (chr, s) =>
    if chr = '(' then s.bAddToken .leftParen
    else if chr = ')' then s.bAddToken .rightParen
    else if chr = Char.ofNat 123 then s.bAddToken .leftBrace
    else if chr = Char.ofNat 125 then s.bAddToken .rightBrace
    else if chr = ',' then s.bAddToken .comma
    else if chr = '.' then s.bAddToken .dot
    else if chr = '-' then s.bAddToken .minus
    else if chr = '+' then s.bAddToken .plus
    else if chr = ';' then s.bAddToken .semicolon
    else if chr = '*' then s.bAddToken .star
    else if chr = '!' then
      match s.bMatchNext '=' with
      | none => none
      | some (true, s1) => s1.bAddToken .bangEqual
      | some (false, s1) => s1.bAddToken .bang
    else if chr = '=' then
      match s.bMatchNext '=' with
      | none => none
      | some (true, s1) => s1.bAddToken .equalEqual
      | some (false, s1) => s1.bAddToken .equal
    else if chr = '<' then
      match s.bMatchNext '=' with
      | none => none
      | some (true, s1) => s1.bAddToken .lessEqual
      | some (false, s1) => s1.bAddToken .less
    else if chr = '>' then
      match s.bMatchNext '=' with
      | none => none
      | some (true, s1) => s1.bAddToken .greaterEqual
      | some (false, s1) => s1.bAddToken .greater
    else if chr = '/' then
      match s.bMatchNext '/' with
      | none => none
      | some (true, s1) => bCommentLoop (byteLen s1.source - s1.current) s1
      | some (false, s1) => s1.bAddToken .slash
    else if chr = '\t' ∨ chr = '\r' ∨ chr = ' ' then some s
    else if chr = '\n' then some { s with line := s.line + 1 }
    else if chr = '\"' then bScanString s
    else if '0' ≤ chr ∧ chr ≤ '9' then bScanNumber s
    else if ('a' ≤ chr ∧ chr ≤ 'z') ∨ ('A' ≤ chr ∧ chr ≤ 'Z') ∨ chr = '_' then
      bScanIdentifier s
    else some { s with errors := s.errors ++ [(s.line, "Unexpected character.")] }

/-- scanner.rs `scan_tokens` main loop, byte-faithful. -/
def bScanLoop : Nat → ScanState → Option ScanState
  | 0, s => some s
  | fuel + 1, s =>
    if s.bIsAtEnd = false then
      match bScanSingleToken { s with start := s.current } with
      | none => none
      | some s' => bScanLoop fuel s'
    else some s

/-- scanner.rs `scan_tokens`, byte-faithful; `none` is a scanner panic. -/
def bScanTokensSt (src : List Char) : Option ScanState :=
  match bScanLoop (byteLen src + 1) (initScan src) with
  | none => none
  | some s => some { s with tokens := s.tokens ++ [⟨.eof, "", none, s.line⟩] }

/-- C9 (code bug): scanner.rs mixes BYTE and CHARACTER indexing:
`is_at_end` (scanner.rs:75) compares the character-counting cursor
against the byte length, while `advance` (scanner.rs:211) indexes
characters with `chars().nth(current).unwrap()`.  On a source holding a
multi-byte character such as U+00E9 (2 bytes, 1 character), the scanner
first does exactly what the claim describes — reports the unexpected
character through the error collaborator and continues — but the cursor
(1) is still below the byte length (2), so the loop re-enters and
`advance`'s `unwrap` panics on `None`: scanning fails and produces no
Eof-terminated token list at all.  The second through fourth conjuncts
pin the mechanism: the first `scan_single_token` succeeds and reports,
`is_at_end` is still false, and the next `advance` is the panic. -/
theorem scan_tokens_panics_on_multibyte :
    bScanTokensSt [Char.ofNat 233] = none ∧
    bScanSingleToken (initScan [Char.ofNat 233])
      = some ⟨[Char.ofNat 233], [], 0, 1, 1, [(1, "Unexpected character.")]⟩ ∧
    ScanState.bIsAtEnd ⟨[Char.ofNat 233], [], 0, 1, 1, [(1, "Unexpected character.")]⟩
      = false ∧
    ScanState.bAdvance ⟨[Char.ofNat 233], [], 1, 1, 1, [(1, "Unexpected character.")]⟩
      = none :=
  ⟨rfl, rfl, rfl, rfl⟩

/-- Outcome of a parser computation: a `JBreadResult` value or error, or
one of the Rust panics (`unwrap` in `peek`, `unwrap`/underflow in
`previous`, the explicit `panic!` in `primary`), or fuel exhaustion (an
artifact of the fuel encoding only). -/
inductive POut (α : Type) where
  | ok (a : α)
  | err (e : JBreadErrors)
  | crashPeek
  | crashPrev
  | crashMsg (m : String)
  | fuelOut
deriving DecidableEq, Repr

/-- parser.rs `Parser` state: the token slice and the `current` cursor. -/
structure PState where
  tokens : List Token
  current : Nat
deriving DecidableEq, Repr

def ParseM (α : Type) := PState → POut α × PState

def pPure {α : Type} (a : α) : ParseM α := fun s => (.ok a, s)

/-- Sequencing with Rust `?`/panic propagation. -/
def pBind {α β : Type} (m : ParseM α) (f : α → ParseM β) : ParseM β := fun s =>
  match m s with
  | (.ok a, s') => f a s'
  | (.err e, s') => (.err e, s')
  | (.crashPeek, s') => (.crashPeek, s')
  | (.crashPrev, s') => (.crashPrev, s')
  | (.crashMsg m', s') => (.crashMsg m', s')
  | (.fuelOut, s') => (.fuelOut, s')

def pThrow {α : Type} (e : JBreadErrors) : ParseM α := fun s => (.err e, s)

def pFuelOut {α : Type} : ParseM α := fun s => (.fuelOut, s)

/-- parser.rs `peek`: `self.tokens.get(self.current).unwrap()`. -/
def pPeek : ParseM Token := fun s =>
  match s.tokens[s.current]? with
  | some t => (.ok t, s)
  | none => (.crashPeek, s)

/-- parser.rs `previous`: `self.tokens.get(self.current - 1).unwrap()`
(the `usize` subtraction underflows when `current = 0`). -/
def pPrevious : ParseM Token := fun s =>
  if s.current = 0 then (.crashPrev, s)
  else
    match s.tokens[s.current - 1]? with
    | some t => (.ok t, s)
    | none => (.crashPrev, s)

/-- parser.rs `is_at_end`. -/
def pIsAtEnd : ParseM Bool :=
  pBind pPeek (fun t => pPure (decide (t.token_type = .eof)))

def pBump : ParseM Unit := fun s => (.ok (), { s with current := s.current + 1 })

/-- parser.rs `advance`. -/
def pAdvance : ParseM Token :=
  pBind pIsAtEnd (fun b =>
    pBind (if b then pPure () else pBump) (fun _ => pPrevious))

/-- parser.rs `check`. -/
def pCheck (tt : TokenTypes) : ParseM Bool :=
  pBind pIsAtEnd (fun b =>
    if b then pPure false
    else pBind pPeek (fun t => pPure (decide (t.token_type = tt))))

/-- parser.rs `match_token`. -/
def pMatchToken : List TokenTypes → ParseM Bool
  | [] => pPure false
  | tt :: rest =>
    pBind (pCheck tt) (fun b =>
      if b then pBind pAdvance (fun _ => pPure true)
      else pMatchToken rest)

/-- parser.rs `Parser::error`: a ParseError carrying the token's line and
lexeme plus the message. -/
def parseError (t : Token) (arg : String) : JBreadErrors :=
  .ParseError ⟨t.line, t.lexeme, arg⟩

/-- parser.rs `consume`. -/
def pConsume (tt : TokenTypes) (arg : String) : ParseM Token :=
  pBind (pCheck tt) (fun b =>
    if b then pAdvance
    else pBind pPeek (fun t => pThrow (parseError t arg)))

/-- The grouping arm of parser.rs `primary`: it matches on `consume`'s
result and turns `Ok` into a `Grouping` node but `Err(_)` into
`panic!("Error")` (`crashMsg`), discarding the ParseError. -/
def groupingConsume (e : Expr) : ParseM Expr := fun s =>
  match pConsume .rightParen "Expect ')' after expression." s with
  | (.ok _, s') => (.ok (Expr.grouping e), s')
  | (.err _, s') => (.crashMsg "Error", s')
  | (.crashPeek, s') => (.crashPeek, s')
  | (.crashPrev, s') => (.crashPrev, s')
  | (.crashMsg m', s') => (.crashMsg m', s')
  | (.fuelOut, s') => (.fuelOut, s')

mutual

/-- parser.rs `expression`. -/
def expression : Nat → ParseM Expr
  | 0 => pFuelOut
  | fuel + 1 => assignment fuel

/-- parser.rs `assignment` (right-recursive; validates the left-hand side
is a `Variable` node, else "Invalid assignment target" at the `=`). -/
def assignment : Nat → ParseM Expr
  | 0 => pFuelOut
  | fuel + 1 =>
    pBind (equality fuel) (fun expr =>
    pBind (pMatchToken [.equal]) (fun b =>
      if b then
        pBind pPrevious (fun equals =>
        pBind (assignment fuel) (fun value =>
          match expr with
          | .variable_ name => pPure (Expr.assign name value)
          | _ => pThrow (parseError equals "Invalid assignment target")))
      else pPure expr))

/-- parser.rs `equality`. -/
def equality : Nat → ParseM Expr
  | 0 => pFuelOut
  | fuel + 1 => pBind (comparison fuel) (fun e => equalityLoop fuel e)

/-- The while-loop of parser.rs `equality` (left-associative folding). -/
def equalityLoop : Nat → Expr → ParseM Expr
  | 0, _ => pFuelOut
  | fuel + 1, expr =>
    pBind (pMatchToken [.bangEqual, .equalEqual]) (fun b =>
      if b then
        pBind pPrevious (fun operator =>
        pBind (comparison fuel) (fun right =>
          equalityLoop fuel (.binary expr operator right)))
      else pPure expr)

/-- parser.rs `comparison`. -/
def comparison : Nat → ParseM Expr
  | 0 => pFuelOut
  | fuel + 1 => pBind (term fuel) (fun e => comparisonLoop fuel e)

/-- The while-loop of parser.rs `comparison`. -/
def comparisonLoop : Nat → Expr → ParseM Expr
  | 0, _ => pFuelOut
  | fuel + 1, expr =>
    pBind (pMatchToken [.greater, .greaterEqual, .less, .lessEqual]) (fun b =>
      if b then
        pBind pPrevious (fun operator =>
        pBind (term fuel) (fun right =>
          comparisonLoop fuel (.binary expr operator right)))
      else pPure expr)

/-- parser.rs `term`. -/
def term : Nat → ParseM Expr
  | 0 => pFuelOut
  | fuel + 1 => pBind (factor fuel) (fun e => termLoop fuel e)

/-- The while-loop of parser.rs `term`. -/
def termLoop : Nat → Expr → ParseM Expr
  | 0, _ => pFuelOut
  | fuel + 1, expr =>
    pBind (pMatchToken [.minus, .plus]) (fun b =>
      if b then
        pBind pPrevious (fun operator =>
        pBind (factor fuel) (fun right =>
          termLoop fuel (.binary expr operator right)))
      else pPure expr)

/-- parser.rs `factor`. -/
def factor : Nat → ParseM Expr
  | 0 => pFuelOut
  | fuel + 1 => pBind (unary fuel) (fun e => factorLoop fuel e)

/-- The while-loop of parser.rs `factor`. -/
def factorLoop : Nat → Expr → ParseM Expr
  | 0, _ => pFuelOut
  | fuel + 1, expr =>
    pBind (pMatchToken [.slash, .star]) (fun b =>
      if b then
        pBind pPrevious (fun operator =>
        pBind (unary fuel) (fun right =>
          factorLoop fuel (.binary expr operator right)))
      else pPure expr)

/-- parser.rs `unary`. -/
def unary : Nat → ParseM Expr
  | 0 => pFuelOut
  | fuel + 1 =>
    pBind (pMatchToken [.bang, .minus]) (fun b =>
      if b then
        pBind pPrevious (fun operator =>
        pBind (unary fuel) (fun right => pPure (Expr.unary operator right)))
      else primary fuel)

/-- parser.rs `primary`.  The grouping arm matches on `consume`'s result
and turns its `Err` into `panic!("Error")` (`crashMsg`), exactly as the
source does. -/
def primary : Nat → ParseM Expr
  | 0 => pFuelOut
  | fuel + 1 =>
    pBind (pMatchToken [.false_]) (fun b1 =>
      if b1 then pPure (Expr.literal (some (.boolean false)))
      else
        pBind (pMatchToken [.true_]) (fun b2 =>
          if b2 then pPure (Expr.literal (some (.boolean true)))
          else
            pBind (pMatchToken [.nil]) (fun b3 =>
              if b3 then pPure (Expr.literal none)
              else
                pBind (pMatchToken [.nanKw]) (fun b4 =>
                  if b4 then pPure (Expr.literal (some .nan))
                  else
                    pBind (pMatchToken [.string, .number]) (fun b5 =>
                      if b5 then
                        pBind pPrevious (fun p => pPure (Expr.literal p.literal))
                      else
                        pBind (pMatchToken [.identifier]) (fun b6 =>
                          if b6 then
                            pBind pPrevious (fun p => pPure (Expr.variable_ p))
                          else
                            pBind (pMatchToken [.leftParen]) (fun b7 =>
                              if b7 then
                                pBind (expression fuel) groupingConsume
                              else
                                pBind pPrevious (fun p =>
                                  pThrow (parseError p "Expected Expression")))))))))

/-- parser.rs `statement` (dispatch on var/print/brace). -/
def statement : Nat → ParseM Stmt
  | 0 => pFuelOut
  | fuel + 1 =>
    pBind (pMatchToken [.var]) (fun b1 =>
      if b1 then varDecleration fuel
      else
        pBind (pMatchToken [.print]) (fun b2 =>
          if b2 then printStatement fuel
          else
            pBind (pMatchToken [.leftBrace]) (fun b3 =>
              if b3 then blockStatement fuel
              else expressionStatement fuel)))

/-- parser.rs `var_decleration`. -/
def varDecleration : Nat → ParseM Stmt
  | 0 => pFuelOut
  | fuel + 1 =>
    pBind (pConsume .identifier "Expected a variable name") (fun name =>
    pBind (pMatchToken [.equal]) (fun b =>
    pBind (if b then pBind (expression fuel) (fun e => pPure (some e))
           else pPure none) (fun initializer =>
    pBind (pConsume .semicolon "Expected ';' after variable declaration")
      (fun _ => pPure (Stmt.var name initializer)))))

/-- parser.rs `expression_statement`. -/
def expressionStatement : Nat → ParseM Stmt
  | 0 => pFuelOut
  | fuel + 1 =>
    pBind (expression fuel) (fun e =>
    pBind (pConsume .semicolon "Expect ';' after expression.") (fun _ =>
      pPure (Stmt.expression e)))

/-- parser.rs `print_statement`. -/
def printStatement : Nat → ParseM Stmt
  | 0 => pFuelOut
  | fuel + 1 =>
    pBind (expression fuel) (fun e =>
    pBind (pConsume .semicolon "Expect ';' after value.") (fun _ =>
      pPure (Stmt.print e)))

/-- parser.rs `block_statement`. -/
def blockStatement : Nat → ParseM Stmt
  | 0 => pFuelOut
  | fuel + 1 =>
    pBind (blockLoop fuel []) (fun ss =>
    pBind (pConsume .rightBrace "Expect '\x7d' after block.") (fun _ =>
      pPure (Stmt.block ss)))

/-- The while-loop of parser.rs `block_statement` (short-circuit `&&`). -/
def blockLoop : Nat → List Stmt → ParseM (List Stmt)
  | 0, _ => pFuelOut
  | fuel + 1, acc =>
    pBind (pCheck .rightBrace) (fun b1 =>
      if b1 then pPure acc
      else
        pBind pIsAtEnd (fun b2 =>
          if b2 then pPure acc
          else
            pBind (statement fuel) (fun st => blockLoop fuel (acc ++ [st]))))

/-- The while-loop of parser.rs `parse`. -/
def parseLoop : Nat → List Stmt → ParseM (List Stmt)
  | 0, _ => pFuelOut
  | fuel + 1, acc =>
    pBind pIsAtEnd (fun b =>
      if b then pPure acc
      else pBind (statement fuel) (fun st => parseLoop fuel (acc ++ [st])))

end

/-- parser.rs `parse`. -/
def parse (fuel : Nat) : ParseM (List Stmt) := parseLoop fuel []

/-- Scan a source string with the model scanner, parse one expression,
and print the resulting AST with the canonical s-expression printer. -/
def printedParse (src : String) : Option String :=
  match expression 30 ⟨(scanTokensSt src.toList).tokens, 0⟩ with
  | (POut.ok e, _) => some (printExpr e)
  | _ => none

/-- C7: factor (`*`, `/`) binds tighter than term (`+`, `-`) and the
binary rules fold left-associatively: "1 + 2 * 3" parses and prints as
"(+ 1 (* 2 3))", and "1 - 2 - 3" as "(- (- 1 2) 3)". -/
theorem parse_precedence_sexpr :
    printedParse "1 + 2 * 3" = some "(+ 1 (* 2 3))" ∧
    printedParse "1 - 2 - 3" = some "(- (- 1 2) 3)" :=
  ⟨rfl, rfl⟩

/-- C3 (code bug): on a `'('` followed by a well-formed expression with
the `')'` missing, `parse` does not return the ParseError that `consume`
builds — `primary` discards it and panics with `panic!("Error")`.  Shown
both on the scanned source "(1;" and on a hand-written `( 1 Eof` token
sequence. -/
theorem grouping_missing_rparen_panics :
    (parse 30 ⟨(scanTokensSt "(1;".toList).tokens, 0⟩).1 = POut.crashMsg "Error" ∧
    (parse 30 ⟨[⟨.leftParen, "(", none, 1⟩, ⟨.number, "1", some (.num 1), 1⟩,
        ⟨.eof, "", none, 1⟩], 0⟩).1 = POut.crashMsg "Error" :=
  ⟨rfl, rfl⟩

/-- C8: in `assignment`, once the left expression is parsed, an `=` is
matched, and the right-hand side is parsed by the right-recursive call to
`assignment` itself, a `Variable` left side becomes an `Assign` node and
every other shape yields the ParseError "Invalid assignment target"
carrying the `=` token's line and lexeme. -/
theorem assignment_target_validation
    (fuel : Nat) (s s1 s2 s3 : PState) (e v : Expr) (eqTok : Token)
    (h1 : equality fuel s = (POut.ok e, s1))
    (h2 : pMatchToken [TokenTypes.equal] s1 = (POut.ok true, s2))
    (h3 : pPrevious s2 = (POut.ok eqTok, s2))
    (h4 : assignment fuel s2 = (POut.ok v, s3)) :
    assignment (fuel + 1) s =
      (match e with
       | Expr.variable_ name => (POut.ok (Expr.assign name v), s3)
       | _ => (POut.err (JBreadErrors.ParseError
           ⟨eqTok.line, eqTok.lexeme, "Invalid assignment target"⟩), s3)) := by
  cases e <;>
    simp [assignment, pBind, h1, h2, h3, h4, pPure, pThrow, parseError]

/-- Token sequence for "1 = 2;" (a non-Variable assignment target). -/
def c8Toks : List Token :=
  [⟨.number, "1", some (.num 1), 1⟩, ⟨.equal, "=", none, 1⟩,
   ⟨.number, "2", some (.num 2), 1⟩, ⟨.semicolon, ";", none, 1⟩,
   ⟨.eof, "", none, 1⟩]

/-- C8 witness: on "1 = 2;", the assignment rule yields the "Invalid
assignment target" ParseError at the `=` token. -/
theorem assignment_target_validation_witness :
    assignment 21 ⟨c8Toks, 0⟩
      = (POut.err (JBreadErrors.ParseError ⟨1, "=", "Invalid assignment target"⟩),
         ⟨c8Toks, 3⟩) := by
  have h := assignment_target_validation 20 ⟨c8Toks, 0⟩ ⟨c8Toks, 1⟩ ⟨c8Toks, 2⟩
    ⟨c8Toks, 3⟩ (Expr.literal (some (.num 1))) (Expr.literal (some (.num 2)))
    ⟨.equal, "=", none, 1⟩ rfl rfl rfl rfl
  exact h

/-- Index of the first End-of-Input token of a token list. -/
def firstEofIdx : List Token → Option Nat
  | [] => none
  | t :: rest =>
    if t.token_type = .eof then some 0 else (firstEofIdx rest).map (· + 1)

lemma firstEofIdx_lt_length {ts : List Token} {k : Nat}
    (h : firstEofIdx ts = some k) : k < ts.length := by
  induction ts generalizing k with
  | nil => simp [firstEofIdx] at h
  | cons t rest ih =>
    by_cases he : t.token_type = .eof
    · simp [firstEofIdx, he] at h
      have hk : k = 0 := by omega
      subst hk
      simp
    · simp [firstEofIdx, he] at h
      obtain ⟨j, hj, rfl⟩ := h
      simpa using Nat.succ_lt_succ (ih hj)

lemma firstEofIdx_get {ts : List Token} {k : Nat} {t : Token}
    (h : firstEofIdx ts = some k) (hg : ts[k]? = some t) :
    t.token_type = .eof := by
  induction ts generalizing k with
  | nil => simp [firstEofIdx] at h
  | cons hd rest ih =>
    by_cases he : hd.token_type = .eof
    · simp [firstEofIdx, he] at h
      have hk : k = 0 := by omega
      subst hk
      simp at hg
      subst hg
      exact he
    · simp [firstEofIdx, he] at h
      obtain ⟨j, hj, rfl⟩ := h
      exact ih hj (by simpa using hg)

lemma firstEofIdx_append {ts : List Token} {t : Token}
    (hne : ∀ u ∈ ts, u.token_type ≠ .eof) (he : t.token_type = .eof) :
    firstEofIdx (ts ++ [t]) = some ts.length := by
  induction ts with
  | nil => simp [firstEofIdx, he]
  | cons hd rest ih =>
    have hhd : hd.token_type ≠ .eof := hne hd (by simp)
    have ih' := ih (fun u hu => hne u (by simp [hu]))
    show firstEofIdx (hd :: (rest ++ [t])) = some (hd :: rest).length
    simp only [firstEofIdx, if_neg hhd, ih', Option.map_some']
    simp

/-- Parser-state invariant implied by an Eof-terminated token sequence:
the cursor sits at or before the first End-of-Input token. -/
def PInv (s : PState) : Prop :=
  ∃ k, firstEofIdx s.tokens = some k ∧ s.current ≤ k

/-- A parser computation that, started from any invariant state, never
aborts with the `peek` out-of-bounds panic and preserves the invariant. -/
def PGood {α : Type} (m : ParseM α) : Prop :=
  ∀ s, PInv s → (m s).1 ≠ POut.crashPeek ∧ PInv (m s).2

lemma pgood_pure {α : Type} (a : α) : PGood (pPure a) :=
  fun _ hs => ⟨fun h => POut.noConfusion h, hs⟩

lemma pgood_throw {α : Type} (e : JBreadErrors) : PGood (pThrow (α := α) e) :=
  fun _ hs => ⟨fun h => POut.noConfusion h, hs⟩

lemma pgood_fuelOut {α : Type} : PGood (pFuelOut (α := α)) :=
  fun _ hs => ⟨fun h => POut.noConfusion h, hs⟩

lemma pgood_bind {α β : Type} {m : ParseM α} {f : α → ParseM β}
    (hm : PGood m) (hf : ∀ a, PGood (f a)) : PGood (pBind m f) := by
  intro s hs
  have h1 := hm s hs
  cases hres : m s with
  | mk r s' =>
    rw [hres] at h1
    cases r with
    | ok a =>
      have h2 := hf a s' h1.2
      simpa [pBind, hres] using h2
    | err e => exact ⟨by simp [pBind, hres], by simpa [pBind, hres] using h1.2⟩
    | crashPeek => simp at h1
    | crashPrev => exact ⟨by simp [pBind, hres], by simpa [pBind, hres] using h1.2⟩
    | crashMsg m' => exact ⟨by simp [pBind, hres], by simpa [pBind, hres] using h1.2⟩
    | fuelOut => exact ⟨by simp [pBind, hres], by simpa [pBind, hres] using h1.2⟩

lemma pgood_ite {α : Type} (b : Bool) {x y : ParseM α}
    (hx : PGood x) (hy : PGood y) : PGood (if b then x else y) := by
  cases b
  · simpa using hy
  · simpa using hx

lemma pinv_peek_some {s : PState} (hs : PInv s) :
    ∃ t, s.tokens[s.current]? = some t := by
  obtain ⟨k, hk, hle⟩ := hs
  have hlen : s.current < s.tokens.length :=
    Nat.lt_of_le_of_lt hle (firstEofIdx_lt_length hk)
  cases hget : s.tokens[s.current]? with
  | none =>
    rw [List.getElem?_eq_none_iff] at hget
    omega
  | some t => exact ⟨t, rfl⟩

lemma pgood_peek : PGood pPeek := by
  intro s hs
  obtain ⟨t, ht⟩ := pinv_peek_some hs
  exact ⟨by simp [pPeek, ht], by simpa [pPeek, ht] using hs⟩

lemma pgood_previous : PGood pPrevious := by
  intro s hs
  unfold pPrevious
  split
  · exact ⟨fun h => POut.noConfusion h, hs⟩
  · cases hget : s.tokens[s.current - 1]? with
    | none => exact ⟨by simp [hget], by simpa [hget] using hs⟩
    | some t => exact ⟨by simp [hget], by simpa [hget] using hs⟩

lemma pgood_isAtEnd : PGood pIsAtEnd :=
  pgood_bind pgood_peek (fun _ => pgood_pure _)

lemma pgood_advance : PGood pAdvance := by
  intro s hs
  obtain ⟨t, ht⟩ := pinv_peek_some hs
  obtain ⟨k, hk, hle⟩ := hs
  by_cases he : t.token_type = TokenTypes.eof
  · have heval : pAdvance s = pPrevious s := by
      simp [pAdvance, pBind, pIsAtEnd, pPeek, pPure, pBump, ht, he]
    rw [heval]
    exact pgood_previous s ⟨k, hk, hle⟩
  · have hkt : s.current ≠ k := by
      intro hck
      rw [hck] at ht
      exact he (firstEofIdx_get hk ht)
    have hlt : s.current + 1 ≤ k := by omega
    have heval : pAdvance s = pPrevious { s with current := s.current + 1 } := by
      simp [pAdvance, pBind, pIsAtEnd, pPeek, pPure, pBump, ht, he]
    rw [heval]
    exact pgood_previous _ ⟨k, by simpa using hk, hlt⟩

lemma pgood_check (tt : TokenTypes) : PGood (pCheck tt) :=
  pgood_bind pgood_isAtEnd (fun b =>
    pgood_ite b (pgood_pure _) (pgood_bind pgood_peek (fun _ => pgood_pure _)))

lemma pgood_matchToken : ∀ tts : List TokenTypes, PGood (pMatchToken tts) := by
  intro tts
  induction tts with
  | nil => exact pgood_pure _
  | cons tt rest ih =>
    exact pgood_bind (pgood_check tt) (fun b =>
      pgood_ite b (pgood_bind pgood_advance (fun _ => pgood_pure _)) ih)

lemma pgood_consume (tt : TokenTypes) (arg : String) :
    PGood (pConsume tt arg) :=
  pgood_bind (pgood_check tt) (fun b =>
    pgood_ite b pgood_advance (pgood_bind pgood_peek (fun _ => pgood_throw _)))

lemma pgood_groupingConsume (e : Expr) : PGood (groupingConsume e) := by
  intro s hs
  have h1 := pgood_consume .rightParen "Expect ')' after expression." s hs
  cases hres : pConsume .rightParen "Expect ')' after expression." s with
  | mk r s' =>
    rw [hres] at h1
    cases r with
    | ok a => exact ⟨by simp [groupingConsume, hres], by simpa [groupingConsume, hres] using h1.2⟩
    | err e' => exact ⟨by simp [groupingConsume, hres], by simpa [groupingConsume, hres] using h1.2⟩
    | crashPeek => simp at h1
    | crashPrev => exact ⟨by simp [groupingConsume, hres], by simpa [groupingConsume, hres] using h1.2⟩
    | crashMsg m' => exact ⟨by simp [groupingConsume, hres], by simpa [groupingConsume, hres] using h1.2⟩
    | fuelOut => exact ⟨by simp [groupingConsume, hres], by simpa [groupingConsume, hres] using h1.2⟩

/-- Every parser rule, at every fuel, is `PGood`: started at or before
the first Eof it never triggers the `peek` out-of-bounds panic and leaves
the cursor at or before the first Eof. -/
lemma allGood : ∀ fuel : Nat,
    PGood (expression fuel) ∧ PGood (assignment fuel) ∧ PGood (equality fuel) ∧
    (∀ e, PGood (equalityLoop fuel e)) ∧ PGood (comparison fuel) ∧
    (∀ e, PGood (comparisonLoop fuel e)) ∧ PGood (term fuel) ∧
    (∀ e, PGood (termLoop fuel e)) ∧ PGood (factor fuel) ∧
    (∀ e, PGood (factorLoop fuel e)) ∧ PGood (unary fuel) ∧ PGood (primary fuel) ∧
    PGood (statement fuel) ∧ PGood (varDecleration fuel) ∧
    PGood (expressionStatement fuel) ∧ PGood (printStatement fuel) ∧
    PGood (blockStatement fuel) ∧ (∀ acc, PGood (blockLoop fuel acc)) ∧
    (∀ acc, PGood (parseLoop fuel acc)) := by
  intro fuel
  induction fuel with
  | zero =>
    exact ⟨pgood_fuelOut, pgood_fuelOut, pgood_fuelOut, fun _ => pgood_fuelOut,
      pgood_fuelOut, fun _ => pgood_fuelOut, pgood_fuelOut, fun _ => pgood_fuelOut,
      pgood_fuelOut, fun _ => pgood_fuelOut, pgood_fuelOut, pgood_fuelOut,
      pgood_fuelOut, pgood_fuelOut, pgood_fuelOut, pgood_fuelOut, pgood_fuelOut,
      fun _ => pgood_fuelOut, fun _ => pgood_fuelOut⟩
  | succ fuel ih =>
    obtain ⟨hExpr, hAssign, hEq, hEqLoop, hCmp, hCmpLoop, hTerm, hTermLoop,
      hFactor, hFactorLoop, hUnary, hPrimary, hStmt, hVarDecl, hExprStmt,
      hPrintStmt, hBlockStmt, hBlockLoop, hParseLoop⟩ := ih
    refine ⟨hAssign, ?_, ?_, ?_, ?_, ?_, ?_, ?_, ?_, ?_, ?_, ?_, ?_, ?_, ?_,
      ?_, ?_, ?_, ?_⟩
    · exact pgood_bind hEq (fun expr =>
        pgood_bind (pgood_matchToken _) (fun b =>
          pgood_ite b
            (pgood_bind pgood_previous (fun equals =>
              pgood_bind hAssign (fun value => by
                cases expr <;> first | exact pgood_pure _ | exact pgood_throw _)))
            (pgood_pure _)))
    · exact pgood_bind hCmp (fun e => hEqLoop e)
    · intro e
      exact pgood_bind (pgood_matchToken _) (fun b =>
        pgood_ite b
          (pgood_bind pgood_previous (fun op =>
            pgood_bind hCmp (fun right => hEqLoop _)))
          (pgood_pure _))
    · exact pgood_bind hTerm (fun e => hCmpLoop e)
    · intro e
      exact pgood_bind (pgood_matchToken _) (fun b =>
        pgood_ite b
          (pgood_bind pgood_previous (fun op =>
            pgood_bind hTerm (fun right => hCmpLoop _)))
          (pgood_pure _))
    · exact pgood_bind hFactor (fun e => hTermLoop e)
    · intro e
      exact pgood_bind (pgood_matchToken _) (fun b =>
        pgood_ite b
          (pgood_bind pgood_previous (fun op =>
            pgood_bind hFactor (fun right => hTermLoop _)))
          (pgood_pure _))
    · exact pgood_bind hUnary (fun e => hFactorLoop e)
    · intro e
      exact pgood_bind (pgood_matchToken _) (fun b =>
        pgood_ite b
          (pgood_bind pgood_previous (fun op =>
            pgood_bind hUnary (fun right => hFactorLoop _)))
          (pgood_pure _))
    · exact pgood_bind (pgood_matchToken _) (fun b =>
        pgood_ite b
          (pgood_bind pgood_previous (fun op =>
            pgood_bind hUnary (fun right => pgood_pure _)))
          hPrimary)
    · exact pgood_bind (pgood_matchToken _) (fun b1 =>
        pgood_ite b1 (pgood_pure _)
          (pgood_bind (pgood_matchToken _) (fun b2 =>
            pgood_ite b2 (pgood_pure _)
              (pgood_bind (pgood_matchToken _) (fun b3 =>
                pgood_ite b3 (pgood_pure _)
                  (pgood_bind (pgood_matchToken _) (fun b4 =>
                    pgood_ite b4 (pgood_pure _)
                      (pgood_bind (pgood_matchToken _) (fun b5 =>
                        pgood_ite b5
                          (pgood_bind pgood_previous (fun p => pgood_pure _))
                          (pgood_bind (pgood_matchToken _) (fun b6 =>
                            pgood_ite b6
                              (pgood_bind pgood_previous (fun p => pgood_pure _))
                              (pgood_bind (pgood_matchToken _) (fun b7 =>
                                pgood_ite b7
                                  (pgood_bind hExpr (fun e =>
                                    pgood_groupingConsume e))
                                  (pgood_bind pgood_previous (fun p =>
                                    pgood_throw _)))))))))))))))
    · exact pgood_bind (pgood_matchToken _) (fun b1 =>
        pgood_ite b1 hVarDecl
          (pgood_bind (pgood_matchToken _) (fun b2 =>
            pgood_ite b2 hPrintStmt
              (pgood_bind (pgood_matchToken _) (fun b3 =>
                pgood_ite b3 hBlockStmt hExprStmt)))))
    · exact pgood_bind (pgood_consume _ _) (fun name =>
        pgood_bind (pgood_matchToken _) (fun b =>
          pgood_bind
            (pgood_ite b (pgood_bind hExpr (fun e => pgood_pure _)) (pgood_pure _))
            (fun initializer =>
              pgood_bind (pgood_consume _ _) (fun _ => pgood_pure _))))
    · exact pgood_bind hExpr (fun e =>
        pgood_bind (pgood_consume _ _) (fun _ => pgood_pure _))
    · exact pgood_bind hExpr (fun e =>
        pgood_bind (pgood_consume _ _) (fun _ => pgood_pure _))
    · exact pgood_bind (hBlockLoop []) (fun ss =>
        pgood_bind (pgood_consume _ _) (fun _ => pgood_pure _))
    · intro acc
      exact pgood_bind (pgood_check _) (fun b1 =>
        pgood_ite b1 (pgood_pure _)
          (pgood_bind pgood_isAtEnd (fun b2 =>
            pgood_ite b2 (pgood_pure _)
              (pgood_bind hStmt (fun st => hBlockLoop _)))))
    · intro acc
      exact pgood_bind pgood_isAtEnd (fun b =>
        pgood_ite b (pgood_pure _)
          (pgood_bind hStmt (fun st => hParseLoop _)))

lemma firstEofIdx_isSome_of_mem {ts : List Token} {t : Token}
    (hm : t ∈ ts) (he : t.token_type = .eof) :
    ∃ k, firstEofIdx ts = some k := by
  induction ts with
  | nil => simp at hm
  | cons hd rest ih =>
    by_cases hhd : hd.token_type = .eof
    · exact ⟨0, by simp [firstEofIdx, hhd]⟩
    · rcases List.mem_cons.mp hm with h | h
      · subst h
        exact absurd he hhd
      · obtain ⟨j, hj⟩ := ih h
        exact ⟨j + 1, by simp [firstEofIdx, hhd, hj]⟩

/-- A non-empty token sequence terminated by an End-of-Input token. -/
def EofTerminated (ts : List Token) : Prop :=
  ∃ pre t, ts = pre ++ [t] ∧ t.token_type = TokenTypes.eof

/-- C10: `Parser::parse` silently requires a non-empty, Eof-terminated
token sequence: on the empty sequence the first `peek`'s `unwrap` panics
out of bounds instead of producing a `JBreadResult`; and for every
Eof-terminated sequence, no `peek`/`is_at_end` call during the whole parse
ever indexes out of bounds (the run never hits the peek panic), at any
fuel. -/
theorem parse_eof_precondition :
    (parse 1 ⟨[], 0⟩).1 = POut.crashPeek ∧
    ∀ (fuel : Nat) (ts : List Token), EofTerminated ts →
      (parse fuel ⟨ts, 0⟩).1 ≠ POut.crashPeek := by
  constructor
  · rfl
  · intro fuel ts hts
    obtain ⟨pre, t, hts, he⟩ := hts
    have hmem : t ∈ ts := by rw [hts]; simp
    obtain ⟨k, hk⟩ := firstEofIdx_isSome_of_mem hmem he
    have hP := (allGood fuel).2.2.2.2.2.2.2.2.2.2.2.2.2.2.2.2.2.2
    exact (hP [] ⟨ts, 0⟩ ⟨k, hk, Nat.zero_le _⟩).1

/-- C10 witness: the single-Eof sequence satisfies the precondition. -/
theorem parse_eof_precondition_witness :
    (parse 1 ⟨[⟨TokenTypes.eof, "", none, 1⟩], 0⟩).1 ≠ POut.crashPeek :=
  parse_eof_precondition.2 1 _
    ⟨[], ⟨TokenTypes.eof, "", none, 1⟩, rfl, rfl⟩

end JBread
